import Mathlib

/-!
Shallow embedding of the Arknights-Simulator battle engine
(src/game_entities.py, src/skill_system.py, src/game_map.py,
src/operation_result.py).

Conventions of the embedding:
* Python `int` fields become `ℤ`, Python `float` fields become `ℚ`.
* Python object identity is modelled with heaps: the world stores every
  `Operator` / `Enemy` object in a list (`op_heap` / `enemy_heap`) and all
  object references (tile occupants, the deployed roster, blocking links)
  are indices into those heaps.
* Code that can raise an exception in Python (attribute errors caused by
  the `Operator.position` field holding a string, a `Position` or `None`;
  division by zero; `Skill.get_current_level` on an empty level list;
  dangling heap indices, which cannot arise from Python references but can
  in the heap encoding) returns `Option`, `none` meaning the Python run
  would have crashed.
* Python `int(x)` truncates toward zero: `pyTrunc` below.
* Euclidean distances are only ever compared with `<`; since `Real.sqrt`
  is strictly monotone on nonnegatives, the embedding compares squared
  distances (exact integer arithmetic) instead of float square roots.
-/

/-- Python `int(x)` for a rational `x`: truncation toward zero. -/
def pyTrunc (q : ℚ) : ℤ := if 0 ≤ q then ⌊q⌋ else ⌈q⌉

/-- Decimal-ish rendering of a rational for failure messages
(`src/game_map.py` interpolates numbers into f-strings). -/
def ratStr (q : ℚ) : String :=
  if q.den = 1 then toString q.num else toString q.num ++ "/" ++ toString q.den

/-- `src/game_entities.py` `Direction`. -/
inductive Direction
  | RIGHT
  | DOWN
  | LEFT
  | UP
deriving DecidableEq, Repr

/-- `src/game_entities.py` `Position`: integer (row, col). -/
structure Position where
  row : ℤ
  col : ℤ
deriving DecidableEq, Repr

/-- Squared Euclidean distance; `Position.distance_to` in the source
returns the float square root, which is only ever compared with `<`. -/
def Position.distSq (a b : Position) : ℤ :=
  (a.row - b.row) ^ 2 + (a.col - b.col) ^ 2

def Position.pyStr (p : Position) : String :=
  "(" ++ toString p.row ++ ", " ++ toString p.col ++ ")"

/-- The dynamic value of the Python attribute `Operator.position` /
`Enemy.position`.  `Operator.__init__` stores the placement-class string
("MELEE"/"RANGED"), `deploy` overwrites it with a grid `Position`, and
`retreat` sets it to `None`; `Enemy` only ever holds `pnone` or `pcoord`. -/
inductive PosVal
  | pstr (s : String)
  | pcoord (p : Position)
  | pnone
deriving DecidableEq, Repr

/-- Python truthiness of a `PosVal` (`if operator.position:`). -/
def PosVal.truthy : PosVal → Bool
  | .pstr s => s ≠ ""
  | .pcoord _ => true
  | .pnone => false

/-- Python `==` comparison of the dynamic position with the string "MELEE". -/
def PosVal.isMeleeStr : PosVal → Bool
  | .pstr s => s = "MELEE"
  | _ => false

/-- Python `==` comparison of the dynamic position with the string "RANGED". -/
def PosVal.isRangedStr : PosVal → Bool
  | .pstr s => s = "RANGED"
  | _ => false

/-- Python `str()` of the dynamic position, for failure messages. -/
def PosVal.pyStr : PosVal → String
  | .pstr s => s
  | .pcoord p => p.pyStr
  | .pnone => "None"

/-- `src/operation_result.py` `OperationResult`. -/
structure OperationResult where
  success : Bool
  reason : Option String := Option.none
deriving DecidableEq, Repr

/-- `OperationResult.success_result`. -/
def OperationResult.success_result : OperationResult :=
  { success := true }

/-- `OperationResult.failure_result`. -/
def OperationResult.failure_result (reason : String) : OperationResult :=
  { success := false, reason := some reason }

/-! ## Skill system (`src/skill_system.py`) -/

inductive SPType
  | INCREASE_WITH_TIME
  | INCREASE_WHEN_ATTACK
  | INCREASE_WHEN_TAKEN_DAMAGE
deriving DecidableEq, Repr

inductive SkillType
  | MANUAL
  | AUTO
  | PASSIVE
deriving DecidableEq, Repr

inductive DurationType
  | NONE
  | SECONDS
  | AMMO
deriving DecidableEq, Repr

/-- `SkillEffect`: the blackboard key→value table.  The Python dict is
built left to right, later entries overwriting earlier ones, so lookups
find the *last* binding of a key. -/
structure SkillEffect where
  effects : List (String × ℚ) := []
deriving DecidableEq, Repr

def SkillEffect.get_effect (se : SkillEffect) (key : String) (default : ℚ) : ℚ :=
  match se.effects.reverse.lookup key with
  | some v => v
  | Option.none => default

/-- `SkillLevel`: static per-level skill data. -/
structure SkillLevel where
  name : String := ""
  skill_type : SkillType := SkillType.MANUAL
  duration_type : DurationType := DurationType.NONE
  duration : ℚ := 0
  sp_type : SPType := SPType.INCREASE_WITH_TIME
  sp_cost : ℚ := 0
  init_sp : ℚ := 0
  max_charge_time : ℤ := 1
  increment : ℚ := 1
  effects : SkillEffect := {}
deriving DecidableEq, Repr

/-- `Skill`: per-instance mutable skill state. -/
structure Skill where
  skill_id : String := ""
  levels : List SkillLevel := []
  current_level : ℕ := 0
  current_sp : ℚ := 0
  charge_count : ℤ := 0
  is_active : Bool := false
  remaining_duration : ℚ := 0
  remaining_ammo : ℤ := 0
  max_charge_count : ℤ := 1
deriving DecidableEq, Repr

/-- `Skill.get_current_level`; `none` models the `ValueError` raised when
the level list is empty (or the Python `IndexError` on a bad index). -/
def Skill.get_level (s : Skill) : Option SkillLevel :=
  s.levels[s.current_level]?

/-- `Skill.can_activate`. -/
def Skill.can_activate (s : Skill) : Option Bool :=
  match s.get_level with
  | Option.none => Option.none
  | some level =>
    if level.skill_type = SkillType.PASSIVE then some false
    else if level.max_charge_time > 1 then some (decide (s.charge_count > 0))
    else some (decide (s.current_sp ≥ level.sp_cost))

/-- `Skill.should_auto_activate`. -/
def Skill.should_auto_activate (s : Skill) : Option Bool :=
  match s.get_level with
  | Option.none => Option.none
  | some level =>
    if level.skill_type ≠ SkillType.AUTO then some false
    else if level.max_charge_time > 1 then some (decide (s.charge_count ≥ level.max_charge_time))
    else some (decide (s.current_sp ≥ level.sp_cost))

/-- `Skill.activate`.  Returns the Python boolean result together with the
mutated skill. -/
def Skill.activate (s : Skill) : Option (Bool × Skill) :=
  match s.can_activate, s.should_auto_activate with
  | some can, some auto =>
    if ¬ can ∧ ¬ auto then some (false, s)
    else
      match s.get_level with
      | Option.none => Option.none
      | some level =>
        let s₁ := if level.max_charge_time > 1 then
            { s with charge_count := s.charge_count - 1 }
          else
            { s with current_sp := 0 }
        let s₂ := { s₁ with is_active := true }
        let s₃ :=
          if level.duration_type = DurationType.SECONDS then
            { s₂ with remaining_duration := level.duration }
          else if level.duration_type = DurationType.AMMO then
            { s₂ with remaining_ammo := pyTrunc (level.effects.get_effect "times" level.duration) }
          else s₂
        some (true, s₃)
  | _, _ => Option.none

/-- The `while` loop of `Skill.update_sp` / `Skill._gain_sp` for
charge-capable skills.  Each iteration banks one charge, so the loop runs
at most `max_charge_time - charge_count` times; the fuel argument is that
bound. -/
def chargeLoop (cost : ℚ) (maxc : ℤ) : ℕ → ℚ × ℤ → ℚ × ℤ
  | 0, p => p
  | n + 1, (sp, cc) =>
    if sp ≥ cost ∧ cc < maxc then chargeLoop cost maxc n (sp - cost, cc + 1)
    else (sp, cc)

/-- `Skill.update_sp` (with `sp_gain_rate = 1`, the only rate the engine
uses). -/
def Skill.update_sp (s : Skill) (delta_time : ℚ) : Option Skill :=
  if s.levels = [] then some s
  else
    match s.get_level with
    | Option.none => Option.none
    | some level =>
      if level.sp_type = SPType.INCREASE_WITH_TIME then
        let sp_gain := level.increment * delta_time * 1
        if level.max_charge_time > 1 then
          let p := chargeLoop level.sp_cost level.max_charge_time
            (level.max_charge_time - s.charge_count).toNat
            (s.current_sp + sp_gain, s.charge_count)
          some { s with current_sp := p.1, charge_count := p.2 }
        else
          some { s with current_sp := min (s.current_sp + sp_gain) level.sp_cost }
      else some s

/-- `Skill.deactivate`. -/
def Skill.deactivate (s : Skill) : Skill :=
  { s with is_active := false, remaining_duration := 0, remaining_ammo := 0 }

/-- `Skill.update_duration`. -/
def Skill.update_duration (s : Skill) (delta_time : ℚ) : Option Skill :=
  if s.is_active = false then some s
  else
    match s.get_level with
    | Option.none => Option.none
    | some level =>
      if level.duration_type = DurationType.SECONDS then
        let s₁ := { s with remaining_duration := s.remaining_duration - delta_time }
        if s₁.remaining_duration ≤ 0 then some s₁.deactivate else some s₁
      else if level.duration_type = DurationType.NONE then
        some s.deactivate
      else some s

/-! ## Entities (`src/game_entities.py`) -/

/-- `Buff`: timed status effect (its apply/remove hooks are no-op stubs in
the source). -/
structure Buff where
  buff_id : String := ""
  duration : ℚ := 0
  remaining_duration : ℚ := 0
  is_active : Bool := true
deriving DecidableEq, Repr

/-- `Buff.update`. -/
def Buff.update (b : Buff) (delta_time : ℚ) : Buff :=
  if b.is_active = true ∧ b.duration > 0 then
    let b₁ := { b with remaining_duration := b.remaining_duration - delta_time }
    if b₁.remaining_duration ≤ 0 then { b₁ with is_active := false } else b₁
  else b

/-- `GameEntity`: shared combat state of operators and enemies. -/
structure GameEntity where
  entity_id : String := ""
  name : String := ""
  position : PosVal := PosVal.pnone
  max_hp : ℤ := 0
  current_hp : ℤ := 0
  atk : ℤ := 0
  def_ : ℤ := 0
  magic_resistance : ℚ := 0
  move_speed : ℚ := 1
  attack_speed : ℚ := 1
  base_attack_time : ℚ := 1
  block_count : ℤ := 0
  is_alive : Bool := true
  buffs : List Buff := []
  debuffs : List Buff := []
deriving DecidableEq, Repr

/-- `GameEntity.take_damage`: returns the actual damage together with the
mutated entity.  Python's `int(...)` truncates toward zero (`pyTrunc`). -/
def GameEntity.take_damage (e : GameEntity) (damage : ℤ) (is_arts : Bool) : ℤ × GameEntity :=
  let actual_damage : ℤ :=
    if is_arts then max 1 (pyTrunc ((damage : ℚ) * (1 - e.magic_resistance)))
    else max 1 (damage - e.def_)
  let hp := max 0 (e.current_hp - actual_damage)
  let e₁ := { e with current_hp := hp }
  let e₂ := if e₁.current_hp ≤ 0 then { e₁ with is_alive := false } else e₁
  (actual_damage, e₂)

/-- `GameEntity.update_buffs`: advance every buff/debuff and drop the ones
that expired (their `remove` hook is a no-op). -/
def GameEntity.update_buffs (e : GameEntity) (delta_time : ℚ) : GameEntity :=
  { e with
    buffs := (e.buffs.map (Buff.update · delta_time)).filter (·.is_active),
    debuffs := (e.debuffs.map (Buff.update · delta_time)).filter (·.is_active) }

/-- `Operator` (`src/game_entities.py`).  References to enemies
(`target`, `blocked_enemies`) are enemy-heap indices. -/
structure Operator extends GameEntity where
  profession : String := "PIONEER"
  skills : List Skill := []
  active_skill_index : ℕ := 0
  direction : Direction := Direction.RIGHT
  target : Option ℕ := Option.none
  attack_cooldown : ℚ := 0
  deploy_cost : ℤ := 0
  is_deployed : Bool := false
  deploy_time : ℚ := 0
  blocked_enemies : List ℕ := []
  max_block_count : ℤ := 1
  current_sp : ℤ := 0
deriving DecidableEq, Repr

/-- `Operator.deploy`: record position and direction. -/
def Operator.deploy (o : Operator) (position : Position) (direction : Direction) : Operator :=
  { o with
    position := PosVal.pcoord position
    direction := direction
    is_deployed := true
    deploy_time := 0 }

/-- `Operator.retreat`: clear position, target and blocking links
(`self.current_sp = 0` sets a scratch attribute on the operator object;
the skills themselves are untouched). -/
def Operator.retreat (o : Operator) : Operator :=
  { o with
    is_deployed := false
    position := PosVal.pnone
    target := Option.none
    blocked_enemies := []
    current_sp := 0 }

/-- `Operator.get_rotated_attack_range`, flattened to the inner
coordinate list.  The source compares the dynamic `position` attribute
with the string "MELEE"; once deployed the attribute holds a `Position`,
so the ranged branch is taken. -/
def Operator.rotated_attack_range (o : Operator) : List (ℤ × ℤ) :=
  if o.position.isMeleeStr then [(0, 1), (0, -1), (1, 0), (-1, 0)]
  else [(1, 0), (2, 0), (3, 0)]

/-- `Operator.can_attack`.  `none` models the `AttributeError` raised when
the dynamic `position` attribute of a deployed operator is a non-empty
string (`self.position.row` on a `str`). -/
def Operator.can_attack (o : Operator) (target_pos : Position) : Option Bool :=
  if ¬ o.position.truthy ∨ o.is_deployed = false then some false
  else
    match o.position with
    | PosVal.pcoord p =>
      let rel_row := target_pos.row - p.row
      let rel_col := target_pos.col - p.col
      some (o.rotated_attack_range.any fun rc => rel_row = rc.1 ∧ rel_col = rc.2)
    | _ => Option.none

/-- `Enemy` (`src/game_entities.py`).  `unique_id` is the enemy's own
heap index; `blocked_by` / `target` are operator-heap indices. -/
structure Enemy extends GameEntity where
  unique_id : ℕ := 0
  path : List Position := []
  path_index : ℕ := 0
  move_progress : ℚ := 0
  is_blocked : Bool := false
  blocked_by : Option ℕ := Option.none
  target : Option ℕ := Option.none
  attack_cooldown : ℚ := 0
  has_reached_goal : Bool := false
deriving DecidableEq, Repr

/-- `Enemy.set_path`. -/
def Enemy.set_path (e : Enemy) (path : List Position) : Enemy :=
  let e₁ := { e with path := path, path_index := 0, move_progress := 0 }
  match path with
  | [] => e₁
  | p :: _ => { e₁ with position := PosVal.pcoord p }

/-- The `while` loop of `Enemy.move`: consume whole tiles of accumulated
progress.  Each iteration increments `path_index`, so `path.length` steps
of fuel always suffice. -/
def Enemy.moveLoop : ℕ → Enemy → Enemy
  | 0, e => e
  | n + 1, e =>
    if e.move_progress ≥ 1 ∧ e.path_index < e.path.length - 1 then
      let i := e.path_index + 1
      let e₁ := { e with
        move_progress := e.move_progress - 1
        path_index := i
        position := match e.path[i]? with
          | some p => PosVal.pcoord p
          | Option.none => e.position }
      let e₂ := if i = e.path.length - 1 then { e₁ with has_reached_goal := true } else e₁
      Enemy.moveLoop n e₂
    else e

/-- `Enemy.move` (its boolean result is ignored by the only caller,
`Enemy.update`, so only the state is modelled). -/
def Enemy.move (e : Enemy) (delta_time : ℚ) : Enemy :=
  if e.is_blocked = true ∨ e.path = [] ∨ e.path_index ≥ e.path.length - 1 then e
  else
    Enemy.moveLoop e.path.length
      { e with move_progress := e.move_progress + e.move_speed * delta_time }

/-- `Enemy.get_blocked_by`. -/
def Enemy.get_blocked_by (e : Enemy) (op_uid : ℕ) : Enemy :=
  { e with is_blocked := true, blocked_by := some op_uid, target := some op_uid }

/-- `Enemy.release_block`. -/
def Enemy.release_block (e : Enemy) : Enemy :=
  { e with is_blocked := false, blocked_by := Option.none, target := Option.none }

/-- `Enemy.update`. -/
def Enemy.update (e : Enemy) (delta_time : ℚ) : Enemy :=
  let e₁ := { e with toGameEntity := e.toGameEntity.update_buffs delta_time }
  let e₂ := if e₁.attack_cooldown > 0 then { e₁ with attack_cooldown := e₁.attack_cooldown - delta_time } else e₁
  if e₂.is_blocked = false then e₂.move delta_time else e₂

/-- `Operator.take_damage` / `Enemy.take_damage`: the inherited
`GameEntity.take_damage` acting on the embedded entity state. -/
def Operator.take_damage (o : Operator) (damage : ℤ) (is_arts : Bool) : ℤ × Operator :=
  let r := o.toGameEntity.take_damage damage is_arts
  (r.1, { o with toGameEntity := r.2 })

def Enemy.take_damage (e : Enemy) (damage : ℤ) (is_arts : Bool) : ℤ × Enemy :=
  let r := e.toGameEntity.take_damage damage is_arts
  (r.1, { e with toGameEntity := r.2 })

/-! ## Map, routes and waves (`src/game_map.py`) -/

inductive TileType
  | FORBIDDEN
  | ROAD
  | WALL
  | GRASS
  | HOLE
  | TELIN
  | TELOUT
deriving DecidableEq, Repr

inductive BuildableType
  | NONE
  | MELEE
  | RANGED
  | ALL
deriving DecidableEq, Repr

def BuildableType.value : BuildableType → String
  | .NONE => "NONE"
  | .MELEE => "MELEE"
  | .RANGED => "RANGED"
  | .ALL => "ALL"

/-- `Tile`.  Static fields other than `buildable_type` are never read by
the engine; `deployed_operator` is an operator-heap index. -/
structure Tile where
  buildable_type : BuildableType := BuildableType.NONE
  deployed_operator : Option ℕ := Option.none
deriving DecidableEq, Repr

/-- `Tile.can_deploy_operator`: occupancy plus the buildable-class check
against the operator's dynamic `position` attribute. -/
def Tile.can_deploy_operator (t : Tile) (operator : Operator) : Bool :=
  if t.deployed_operator.isSome then false
  else if t.buildable_type = BuildableType.NONE then false
  else if t.buildable_type = BuildableType.MELEE ∧ ¬ operator.position.isMeleeStr then false
  else if t.buildable_type = BuildableType.RANGED ∧ ¬ operator.position.isRangedStr then false
  else true

/-- One step of `Route._find_path` in orthogonal mode: the row is stepped
toward the target first, then the column. -/
def stepToward (current target : Position) : Position :=
  if current.row < target.row then { current with row := current.row + 1 }
  else if current.row > target.row then { current with row := current.row - 1 }
  else if current.col < target.col then { current with col := current.col + 1 }
  else if current.col > target.col then { current with col := current.col - 1 }
  else current

/-- The orthogonal-mode `while` loop of `Route._find_path`. -/
def findPathLoop (current target : Position) : List Position :=
  if current = target then []
  else
    let next := stepToward current target
    next :: findPathLoop next target
termination_by ((current.row - target.row).natAbs + (current.col - target.col).natAbs)
decreasing_by
  simp only [stepToward]
  split
  case isTrue h =>
    have : current.row + 1 - target.row = current.row - target.row + 1 := by ring
    simp only [this]
    omega
  case isFalse h =>
    split
    case isTrue h₂ =>
      have : current.row - 1 - target.row = current.row - target.row - 1 := by ring
      simp only [this]
      omega
    case isFalse h₂ =>
      split
      case isTrue h₃ =>
        have : current.col + 1 - target.col = current.col - target.col + 1 := by ring
        simp only [this]
        omega
      case isFalse h₃ =>
        split
        case isTrue h₄ =>
          have : current.col - 1 - target.col = current.col - target.col - 1 := by ring
          simp only [this]
          omega
        case isFalse h₄ =>
          exfalso
          rename_i hne
          exact hne (by cases current; cases target; simp_all; omega)

/-- One step of the Bresenham loop of `Route._generate_line_path`,
operating on `((x, y), err)`. -/
def bresStep (sx sy : ℤ) (dx dy : ℤ) (x y err : ℤ) : ℤ × ℤ × ℤ :=
  let e2 := 2 * err
  let (err₁, x₁) := if e2 > -dy then (err - dy, x + sx) else (err, x)
  let (err₂, y₁) := if e2 < dx then (err₁ + dx, y + sy) else (err₁, y)
  (x₁, y₁, err₂)

/-- The `while True` loop of `Route._generate_line_path`, with fuel (the
loop takes at most `max dx dy ≤ dx + dy` iterations). -/
def bresLoop (x0 y0 x1 y1 sx sy dx dy : ℤ) : ℕ → ℤ → ℤ → ℤ → List Position
  | 0, _, _, _ => []
  | n + 1, x, y, err =>
    let here : List Position := if x ≠ x0 ∨ y ≠ y0 then [{ row := y, col := x }] else []
    if x = x1 ∧ y = y1 then here
    else
      let s := bresStep sx sy dx dy x y err
      here ++ bresLoop x0 y0 x1 y1 sx sy dx dy n s.1 s.2.1 s.2.2

/-- `Route._generate_line_path` (diagonal/line mode). -/
def generateLinePath (start stop : Position) : List Position :=
  let x0 := start.col
  let y0 := start.row
  let x1 := stop.col
  let y1 := stop.row
  let dx := (x1 - x0).natAbs
  let dy := (y1 - y0).natAbs
  let sx : ℤ := if x0 < x1 then 1 else -1
  let sy : ℤ := if y0 < y1 then 1 else -1
  bresLoop x0 y0 x1 y1 sx sy (dx : ℤ) (dy : ℤ) (dx + dy + 1) x0 y0 ((dx : ℤ) - (dy : ℤ))

/-- `Route._find_path`. -/
def findPath (allow_diagonal_move : Bool) (start stop : Position) : List Position :=
  if allow_diagonal_move then generateLinePath start stop
  else findPathLoop start stop

/-- The checkpoint fold of `Route._generate_path`. -/
def generatePathAux (allow_diagonal_move : Bool) : Position → List Position → Position → List Position
  | current, [], stop => findPath allow_diagonal_move current stop
  | current, cp :: cps, stop =>
    findPath allow_diagonal_move current cp ++ generatePathAux allow_diagonal_move cp cps stop

/-- `Route._generate_path`: start point, then the concatenated segments
through every checkpoint and on to the end. -/
def generate_path (allow_diagonal_move : Bool) (start : Position) (checkpoints : List Position) (stop : Position) : List Position :=
  start :: generatePathAux allow_diagonal_move start checkpoints stop

/-- `Route`: checkpoints are stored already parsed to positions. -/
structure Route where
  motion_mode : String := "WALK"
  start_position : Position := { row := 0, col := 0 }
  end_position : Position := { row := 0, col := 0 }
  checkpoints : List Position := []
  allow_diagonal_move : Bool := false
  path : List Position := []
deriving DecidableEq, Repr

/-- `Route.__init__`: the path is generated once at construction. -/
def Route.mk' (start stop : Position) (checkpoints : List Position) (allow_diagonal_move : Bool) : Route :=
  { start_position := start
    end_position := stop
    checkpoints := checkpoints
    allow_diagonal_move := allow_diagonal_move
    path := generate_path allow_diagonal_move start checkpoints stop }

/-- `WaveAction`. -/
structure WaveAction where
  action_type : String := "SPAWN"
  enemy_key : String := ""
  count : ℤ := 1
  pre_delay : ℚ := 0
  interval : ℚ := 1
  route_index : ℕ := 0
  is_completed : Bool := false
  spawned_count : ℤ := 0
  current_time : ℚ := 0
deriving DecidableEq, Repr

/-- `WaveFragment`. -/
structure WaveFragment where
  pre_delay : ℚ := 0
  actions : List WaveAction := []
  is_active : Bool := false
  is_completed : Bool := false
  current_time : ℚ := 0
deriving DecidableEq, Repr

/-- `Wave`. -/
structure Wave where
  pre_delay : ℚ := 0
  post_delay : ℚ := 0
  max_time_waiting : ℚ := -1
  fragments : List WaveFragment := []
  is_active : Bool := false
  is_completed : Bool := false
  current_time : ℚ := 0
deriving DecidableEq, Repr

/-- The already-parsed enemy record `DataLoader.get_enemy_by_id` returns
(static content data is out of engine scope; only the fields the `Enemy`
constructor reads are kept). -/
structure EnemyData where
  name : String := "Unknown Enemy"
  max_hp : ℤ := 100
  atk : ℤ := 0
  def_ : ℤ := 0
  magic_resistance : ℚ := 0
  move_speed : ℚ := 1
  attack_speed : ℚ := 1
  base_attack_time : ℚ := 1
deriving DecidableEq, Repr

/-- `GameMap`: level data plus mutable battle-world state.  `op_heap` /
`enemy_heap` store every operator/enemy object; lists of uids model the
Python reference lists. -/
structure GameMap where
  rows : ℕ := 0
  cols : ℕ := 0
  map_layout : List (List ℕ) := []
  tiles : List Tile := []
  routes : List Route := []
  enemy_db : List (String × EnemyData) := []
  waves : List Wave := []
  character_limit : ℕ := 8
  max_life_point : ℤ := 3
  initial_cost : ℚ := 10
  max_cost : ℚ := 99
  cost_increase_time : ℚ := 1
  current_cost : ℚ := 10
  current_life_points : ℤ := 3
  deployed_operators : List ℕ := []
  active_enemies : List ℕ := []
  current_wave_index : ℕ := 0
  game_time : ℚ := 0
  is_victory : Bool := false
  is_defeat : Bool := false
  op_heap : List Operator := []
  enemy_heap : List Enemy := []
deriving DecidableEq, Repr

namespace GameMap

/-- `GameMap.is_valid_position`. -/
def is_valid_position (st : GameMap) (position : Position) : Bool :=
  decide (0 ≤ position.row) && decide (position.row < (st.rows : ℤ)) &&
  decide (0 ≤ position.col) && decide (position.col < (st.cols : ℤ))

/-- The tile index `GameMap.get_tile_at` reads from the (vertically
flipped) layout.  Out-of-range layout indexing is folded into `none`
alongside the source's `tiles.get` returning `None`. -/
def tile_index_at (st : GameMap) (position : Position) : Option ℕ :=
  if st.is_valid_position position then
    match st.map_layout[st.rows - 1 - position.row.toNat]? with
    | some rowl => rowl[position.col.toNat]?
    | Option.none => Option.none
  else Option.none

/-- `GameMap.get_tile_at`, returning the tile index (the Python object
reference) together with the tile's current state. -/
def get_tile_at (st : GameMap) (position : Position) : Option (ℕ × Tile) :=
  match st.tile_index_at position with
  | Option.none => Option.none
  | some i =>
    match st.tiles[i]? with
    | some t => some (i, t)
    | Option.none => Option.none

/-- `GameMap.can_deploy_at`. -/
def can_deploy_at (st : GameMap) (position : Position) (operator : Operator) : Bool :=
  match st.get_tile_at position with
  | Option.none => false
  | some (_, t) => t.can_deploy_operator operator

/-- `GameMap._check_operator_tile_compatibility`. -/
def check_operator_tile_compatibility (operator : Operator) (t : Tile) : Bool :=
  match t.buildable_type with
  | BuildableType.NONE => false
  | BuildableType.ALL => true
  | BuildableType.MELEE => operator.position.isMeleeStr
  | BuildableType.RANGED => operator.position.isRangedStr

/-- `GameMap.deploy_operator`.  The operator argument is its heap index;
`none` only on a dangling index (impossible for a Python reference). -/
def deploy_operator (st : GameMap) (u : ℕ) (position : Position) (direction : Direction) : Option (OperationResult × GameMap) :=
  match st.op_heap[u]? with
  | Option.none => Option.none
  | some operator =>
    if ¬ st.is_valid_position position then
      some (OperationResult.failure_result ("位置无效: " ++ position.pyStr), st)
    else
      match st.get_tile_at position with
      | Option.none =>
        some (OperationResult.failure_result ("无法获取地块信息: " ++ position.pyStr), st)
      | some (i, t) =>
        if t.deployed_operator.isSome then
          some (OperationResult.failure_result ("位置已被占用: " ++ position.pyStr), st)
        else if ¬ check_operator_tile_compatibility operator t then
          some (OperationResult.failure_result ("干员类型不匹配: " ++ operator.name ++ "(" ++ operator.position.pyStr ++ ") 无法部署到 " ++ t.buildable_type.value ++ " 位置"), st)
        else if st.current_cost < (operator.deploy_cost : ℚ) then
          some (OperationResult.failure_result ("费用不足: 需要" ++ toString operator.deploy_cost ++ "，当前" ++ ratStr st.current_cost), st)
        else if st.deployed_operators.length ≥ st.character_limit then
          some (OperationResult.failure_result ("已达到人数上限: " ++ toString st.character_limit), st)
        else if t.can_deploy_operator operator then
          let st₁ := { st with
            tiles := st.tiles.set i { t with deployed_operator := some u }
            op_heap := st.op_heap.set u (operator.deploy position direction)
            deployed_operators := st.deployed_operators ++ [u]
            current_cost := st.current_cost - (operator.deploy_cost : ℚ) }
          some (OperationResult.success_result, st₁)
        else
          some (OperationResult.failure_result "地块拒绝部署", st)

/-- `Tile.remove_operator` at tile index `i`: retreat the occupant (a
mutation of the operator object, i.e. of its heap slot) and clear the
tile.  `none` on a dangling occupant index. -/
def remove_operator_at (st : GameMap) (i : ℕ) (t : Tile) : Option GameMap :=
  match t.deployed_operator with
  | Option.none => some st
  | some occ =>
    match st.op_heap[occ]? with
    | Option.none => Option.none
    | some op =>
      some { st with
        op_heap := st.op_heap.set occ op.retreat
        tiles := st.tiles.set i { t with deployed_operator := Option.none } }

/-- `GameMap.retreat_operator`.  `none` models the `AttributeError` the
source would raise in `get_tile_at` when the operator's dynamic `position`
attribute is a non-empty string (a truthy non-`Position`). -/
def retreat_operator (st : GameMap) (u : ℕ) : Option (Bool × GameMap) :=
  match st.op_heap[u]? with
  | Option.none => Option.none
  | some operator =>
    if u ∉ st.deployed_operators then some (false, st)
    else
      let step1 : Option GameMap :=
        match operator.position with
        | PosVal.pcoord p =>
          match st.get_tile_at p with
          | some (i, t) => st.remove_operator_at i t
          | Option.none => some st
        | PosVal.pstr s => if s = "" then some st else Option.none
        | PosVal.pnone => some st
      match step1 with
      | Option.none => Option.none
      | some st₁ =>
        match st₁.op_heap[u]? with
        | Option.none => Option.none
        | some op₁ =>
          some (true, { st₁ with
            deployed_operators := st₁.deployed_operators.erase u
            op_heap := st₁.op_heap.set u op₁.retreat })

/-- `GameMap.spawn_enemy`: look the enemy up in the content data, build
the object (its heap slot), set its route path, append it to the active
roster.  Returns the new uid when an enemy was spawned. -/
def spawn_enemy (st : GameMap) (enemy_id : String) (route_index : ℕ) : Option ℕ × GameMap :=
  match st.enemy_db.lookup enemy_id with
  | Option.none => (Option.none, st)
  | some data =>
    let uid := st.enemy_heap.length
    let e : Enemy := {
      entity_id := enemy_id
      name := data.name
      max_hp := data.max_hp
      current_hp := data.max_hp
      atk := data.atk
      def_ := data.def_
      magic_resistance := data.magic_resistance
      move_speed := data.move_speed
      attack_speed := data.attack_speed
      base_attack_time := data.base_attack_time
      unique_id := uid }
    let e₁ :=
      match st.routes[route_index]? with
      | some route => e.set_path route.path
      | Option.none => e
    (some uid, { st with
      enemy_heap := st.enemy_heap ++ [e₁]
      active_enemies := st.active_enemies ++ [uid] })

end GameMap

/-! ## Operator skill updates (`src/game_entities.py`) -/

/-- `Operator.activate_skill_by_index`. -/
def Operator.activate_skill_by_index (o : Operator) (skill_index : ℕ) : Option (OperationResult × Operator) :=
  if o.skills = [] then some (OperationResult.failure_result "干员没有技能", o)
  else if skill_index ≥ o.skills.length then
    some (OperationResult.failure_result ("技能索引超出范围: " ++ toString skill_index ++ " >= " ++ toString o.skills.length), o)
  else
    match o.skills[skill_index]? with
    | Option.none => Option.none
    | some skill =>
      match skill.can_activate with
      | Option.none => Option.none
      | some can =>
        if can then
          match skill.activate with
          | Option.none => Option.none
          | some (ok, skill₁) =>
            let o₁ := { o with skills := o.skills.set skill_index skill₁ }
            if ok then some (OperationResult.success_result, o₁)
            else some (OperationResult.failure_result "技能激活失败", o₁)
        else
          match skill.get_level with
          | Option.none => Option.none
          | some level =>
            some (OperationResult.failure_result ("SP不足: " ++ ratStr skill.current_sp ++ "/" ++ ratStr level.sp_cost), o)

/-- One iteration of the `for skill in self.skills` loop of
`Operator.update_skills` (the skill is addressed by its index, which is
what `self.skills.index(skill)` recovers in the source). -/
def Operator.update_skill_step (delta_time : ℚ) (o : Operator) (i : ℕ) : Option Operator :=
  match o.skills[i]? with
  | Option.none => Option.none
  | some skill =>
    match skill.update_sp delta_time with
    | Option.none => Option.none
    | some skill₁ =>
      match skill₁.update_duration delta_time with
      | Option.none => Option.none
      | some skill₂ =>
        let o₁ := { o with skills := o.skills.set i skill₂ }
        match skill₂.should_auto_activate with
        | Option.none => Option.none
        | some auto =>
          if auto then
            match o₁.activate_skill_by_index i with
            | Option.none => Option.none
            | some (_, o₂) => some o₂
          else some o₁

/-- Fold a fallible step over a list, short-circuiting on `none`
(`for` loops whose bodies can raise, threading mutable state). -/
def optFold {σ α : Type} (f : σ → α → Option σ) : σ → List α → Option σ
  | s, [] => some s
  | s, a :: l =>
    match f s a with
    | Option.none => Option.none
    | some s₁ => optFold f s₁ l

/-- `Operator.update_skills`: the loop over the operator's skills. -/
def Operator.update_skills (o : Operator) (delta_time : ℚ) : Option Operator :=
  optFold (Operator.update_skill_step delta_time) o (List.range o.skills.length)

/-- `Operator.update`. -/
def Operator.update (o : Operator) (delta_time : ℚ) : Option Operator :=
  if o.is_deployed = false then some o
  else
    let o₁ := { o with toGameEntity := o.toGameEntity.update_buffs delta_time }
    match o₁.update_skills delta_time with
    | Option.none => Option.none
    | some o₂ =>
      let o₃ := if o₂.attack_cooldown > 0 then { o₂ with attack_cooldown := o₂.attack_cooldown - delta_time } else o₂
      some { o₃ with deploy_time := o₃.deploy_time + delta_time }

namespace GameMap

/-! ## The update tick (`GameMap.update`) -/

/-- One iteration of the `for operator in self.deployed_operators[:]`
loop: update the operator and auto-retreat it if dead. -/
def operator_step (delta_time : ℚ) (st : GameMap) (u : ℕ) : Option GameMap :=
  match st.op_heap[u]? with
  | Option.none => Option.none
  | some operator =>
    match operator.update delta_time with
    | Option.none => Option.none
    | some op₁ =>
      let st₁ := { st with op_heap := st.op_heap.set u op₁ }
      if op₁.is_alive = true then some st₁
      else
        match st₁.retreat_operator u with
        | Option.none => Option.none
        | some (_, st₂) => some st₂

/-- The deployed-operator update phase of `GameMap.update`. -/
def update_operators (st : GameMap) (delta_time : ℚ) : Option GameMap :=
  optFold (operator_step delta_time) st st.deployed_operators

/-- One iteration of the `for enemy in self.active_enemies[:]` loop:
update the enemy, then handle goal arrival (life loss, removal, defeat
check) or death (removal). -/
def enemy_step (delta_time : ℚ) (st : GameMap) (u : ℕ) : Option GameMap :=
  match st.enemy_heap[u]? with
  | Option.none => Option.none
  | some enemy =>
    let e₁ := enemy.update delta_time
    let st₁ := { st with enemy_heap := st.enemy_heap.set u e₁ }
    if e₁.has_reached_goal = true then
      let st₂ := { st₁ with
        current_life_points := st₁.current_life_points - 1
        active_enemies := st₁.active_enemies.erase u }
      if st₂.current_life_points ≤ 0 then some { st₂ with is_defeat := true }
      else some st₂
    else if e₁.is_alive = false then
      some { st₁ with active_enemies := st₁.active_enemies.erase u }
    else some st₁

/-- The enemy update phase of `GameMap.update`. -/
def update_enemies (st : GameMap) (delta_time : ℚ) : Option GameMap :=
  optFold (enemy_step delta_time) st st.active_enemies

/-- The blocked-enemy scan of `GameMap._find_attack_target`: first alive
blocked enemy.  Outer `none` is a dangling reference. -/
def first_alive_blocked (st : GameMap) : List ℕ → Option (Option ℕ)
  | [] => some Option.none
  | u :: rest =>
    match st.enemy_heap[u]? with
    | Option.none => Option.none
    | some e =>
      if e.is_alive = true then some (some u)
      else first_alive_blocked st rest

/-- The range-scan fold of `GameMap._find_attack_target`: nearest alive
enemy inside the operator's attack range.  Distances are compared via
their squares (the float square root is strictly monotone). -/
def closest_target_step (op : Operator) (st : GameMap) (best : Option (ℕ × ℤ)) (u : ℕ) : Option (Option (ℕ × ℤ)) :=
  match st.enemy_heap[u]? with
  | Option.none => Option.none
  | some e =>
    if e.is_alive = false ∨ ¬ e.position.truthy then some best
    else
      match e.position with
      | PosVal.pcoord epos =>
        match op.can_attack epos with
        | Option.none => Option.none
        | some can =>
          if can then
            match op.position with
            | PosVal.pcoord opos =>
              let d := opos.distSq epos
              match best with
              | Option.none => some (some (u, d))
              | some (bu, bd) => if d < bd then some (some (u, d)) else some (some (bu, bd))
            | _ => Option.none
          else some best
      | _ => Option.none

/-- `GameMap._find_attack_target`.  Outer `none` models a crash, the
inner option is the target. -/
def find_attack_target (st : GameMap) (op : Operator) : Option (Option ℕ) :=
  if ¬ op.position.truthy then some Option.none
  else
    match first_alive_blocked st op.blocked_enemies with
    | Option.none => Option.none
    | some (some u) => some (some u)
    | some Option.none =>
      match optFold (closest_target_step op st) (Option.none : Option (ℕ × ℤ)) st.active_enemies with
      | Option.none => Option.none
      | some best =>
        match best with
        | some (u, _) => some (some u)
        | Option.none => some Option.none

/-- One iteration of the operator half of `GameMap._process_combat`. -/
def operator_attack_step (st : GameMap) (u : ℕ) : Option GameMap :=
  match st.op_heap[u]? with
  | Option.none => Option.none
  | some operator =>
    if operator.attack_cooldown ≤ 0 then
      match st.find_attack_target operator with
      | Option.none => Option.none
      | some Option.none => some st
      | some (some tu) =>
        match st.enemy_heap[tu]? with
        | Option.none => Option.none
        | some e =>
          let r := e.take_damage operator.atk false
          let st₁ := { st with enemy_heap := st.enemy_heap.set tu r.2 }
          if operator.attack_speed = 0 then Option.none
          else
            let op₁ := { operator with attack_cooldown := operator.base_attack_time / operator.attack_speed }
            some { st₁ with op_heap := st₁.op_heap.set u op₁ }
    else some st

/-- One iteration of the enemy half of `GameMap._process_combat`. -/
def enemy_attack_step (st : GameMap) (u : ℕ) : Option GameMap :=
  match st.enemy_heap[u]? with
  | Option.none => Option.none
  | some enemy =>
    if enemy.is_blocked = true ∧ enemy.attack_cooldown ≤ 0 then
      match enemy.blocked_by with
      | Option.none => some st
      | some ub =>
        match st.op_heap[ub]? with
        | Option.none => Option.none
        | some op =>
          let r := op.take_damage enemy.atk false
          let st₁ := { st with op_heap := st.op_heap.set ub r.2 }
          if enemy.attack_speed = 0 then Option.none
          else
            let e₁ := { enemy with attack_cooldown := enemy.base_attack_time / enemy.attack_speed }
            some { st₁ with enemy_heap := st₁.enemy_heap.set u e₁ }
    else some st

/-- `GameMap._process_combat`. -/
def process_combat (st : GameMap) : Option GameMap :=
  match optFold operator_attack_step st st.deployed_operators with
  | Option.none => Option.none
  | some st₁ => optFold enemy_attack_step st₁ st₁.active_enemies

/-- One iteration of the first loop of `GameMap._process_blocking`:
an unblocked enemy standing on an occupied tile gets blocked when the
occupant has spare block capacity. -/
def block_step (st : GameMap) (u : ℕ) : Option GameMap :=
  match st.enemy_heap[u]? with
  | Option.none => Option.none
  | some enemy =>
    if enemy.is_blocked = true ∨ ¬ enemy.position.truthy then some st
    else
      match enemy.position with
      | PosVal.pcoord p =>
        match st.get_tile_at p with
        | Option.none => some st
        | some (_, t) =>
          match t.deployed_operator with
          | Option.none => some st
          | some ou =>
            match st.op_heap[ou]? with
            | Option.none => Option.none
            | some op =>
              if (op.blocked_enemies.length : ℤ) < op.max_block_count then
                some { st with
                  enemy_heap := st.enemy_heap.set u (enemy.get_blocked_by ou)
                  op_heap := st.op_heap.set ou ({ op with blocked_enemies := op.blocked_enemies ++ [u] }) }
              else some st
      | _ => Option.none

/-- The list comprehension of the second loop of
`GameMap._process_blocking`: keep the blocked enemies that are alive. -/
def filter_alive (st : GameMap) : List ℕ → Option (List ℕ)
  | [] => some []
  | u :: rest =>
    match st.enemy_heap[u]? with
    | Option.none => Option.none
    | some e =>
      match filter_alive st rest with
      | Option.none => Option.none
      | some l => if e.is_alive = true then some (u :: l) else some l

/-- One iteration of the second loop of `GameMap._process_blocking`. -/
def purge_step (st : GameMap) (u : ℕ) : Option GameMap :=
  match st.op_heap[u]? with
  | Option.none => Option.none
  | some op =>
    match filter_alive st op.blocked_enemies with
    | Option.none => Option.none
    | some l => some { st with op_heap := st.op_heap.set u ({ op with blocked_enemies := l }) }

/-- One iteration of the third loop of `GameMap._process_blocking`:
release an enemy whose blocker left the roster or died (the Python `or`
short-circuits, so the blocker's object is only read when it is still in
the roster). -/
def release_step (st : GameMap) (u : ℕ) : Option GameMap :=
  match st.enemy_heap[u]? with
  | Option.none => Option.none
  | some enemy =>
    if enemy.is_blocked = true then
      match enemy.blocked_by with
      | Option.none => some st
      | some ub =>
        if ub ∈ st.deployed_operators then
          match st.op_heap[ub]? with
          | Option.none => Option.none
          | some op =>
            if op.is_alive = true then some st
            else some { st with enemy_heap := st.enemy_heap.set u enemy.release_block }
        else some { st with enemy_heap := st.enemy_heap.set u enemy.release_block }
    else some st

/-- `GameMap._process_blocking`. -/
def process_blocking (st : GameMap) : Option GameMap :=
  match optFold block_step st st.active_enemies with
  | Option.none => Option.none
  | some st₁ =>
    match optFold purge_step st₁ st₁.deployed_operators with
    | Option.none => Option.none
    | some st₂ => optFold release_step st₂ st₂.active_enemies

/-- One iteration of the action loop of `GameMap._update_waves`. -/
def action_step (delta_time : ℚ) : List WaveAction × GameMap → WaveAction → List WaveAction × GameMap
  | (acc, st), a =>
    if a.is_completed = true then (acc ++ [a], st)
    else
      let a₁ := { a with current_time := a.current_time + delta_time }
      if a₁.current_time ≥ a₁.pre_delay then
        if a₁.action_type = "SPAWN" then
          if a₁.spawned_count < a₁.count then
            let st₁ := (st.spawn_enemy a₁.enemy_key a₁.route_index).2
            let a₂ := { a₁ with spawned_count := a₁.spawned_count + 1 }
            let a₃ := if a₂.spawned_count ≥ a₂.count then { a₂ with is_completed := true } else a₂
            (acc ++ [a₃], st₁)
          else (acc ++ [a₁], st)
        else (acc ++ [{ a₁ with is_completed := true }], st)
      else (acc ++ [a₁], st)

/-- One iteration of the fragment loop of `GameMap._update_waves`
(`wave_time` is the wave's already-advanced elapsed time). -/
def fragment_step (delta_time : ℚ) (wave_time : ℚ) : List WaveFragment × GameMap → WaveFragment → List WaveFragment × GameMap
  | (acc, st), f =>
    let f₀ := if f.is_active = false ∧ wave_time ≥ f.pre_delay then { f with is_active := true } else f
    if f₀.is_active = true ∧ f₀.is_completed = false then
      let f₁ := { f₀ with current_time := f₀.current_time + delta_time }
      let r := f₁.actions.foldl (action_step delta_time) ([], st)
      let f₂ := { f₁ with actions := r.1 }
      let f₃ := if r.1.all (·.is_completed) then { f₂ with is_completed := true } else f₂
      (acc ++ [f₃], r.2)
    else (acc ++ [f₀], st)

/-- `GameMap._update_waves`. -/
def update_waves (st : GameMap) (delta_time : ℚ) : GameMap :=
  match st.waves[st.current_wave_index]? with
  | Option.none => st
  | some wave =>
    let w₁ := { wave with is_active := true, current_time := wave.current_time + delta_time }
    let r := w₁.fragments.foldl (fragment_step delta_time w₁.current_time) ([], st)
    let w₂ := { w₁ with fragments := r.1 }
    let st₁ := r.2
    if r.1.all (·.is_completed) then
      { st₁ with
        waves := st₁.waves.set st.current_wave_index ({ w₂ with is_completed := true })
        current_wave_index := st.current_wave_index + 1 }
    else
      { st₁ with waves := st₁.waves.set st.current_wave_index w₂ }

/-- The victory condition of `GameMap.update`, evaluated on the state at
the end of the tick. -/
def victory_cond (st : GameMap) : Bool :=
  decide (st.current_wave_index ≥ st.waves.length) &&
  decide (st.active_enemies = []) &&
  decide (st.current_life_points > 0) &&
  (st.is_defeat = false)

/-- `GameMap.update`: one full tick.  `none` models a Python exception
(division by a zero `cost_increase_time`/`attack_speed`, skill-level or
dynamic-attribute errors, dangling heap indices). -/
def update (st : GameMap) (delta_time : ℚ) : Option GameMap :=
  if st.cost_increase_time = 0 then Option.none
  else
    let st₁ := { st with
      game_time := st.game_time + delta_time
      current_cost := min st.max_cost (st.current_cost + delta_time / st.cost_increase_time) }
    match st₁.update_operators delta_time with
    | Option.none => Option.none
    | some st₂ =>
      match st₂.update_enemies delta_time with
      | Option.none => Option.none
      | some st₃ =>
        match st₃.process_combat with
        | Option.none => Option.none
        | some st₄ =>
          match st₄.process_blocking with
          | Option.none => Option.none
          | some st₅ =>
            let st₆ := st₅.update_waves delta_time
            some (if st₆.victory_cond then { st₆ with is_victory := true } else st₆)

/-- Iterated ticks (for the "any later tick" part of defeat terminality). -/
def updateIter (st : GameMap) : List ℚ → Option GameMap
  | [] => some st
  | d :: ds =>
    match st.update d with
    | Option.none => Option.none
    | some st₁ => updateIter st₁ ds

end GameMap

/-! ## Generic helper lemmas -/

theorem optFold_eq_some_pres {σ α : Type} (f : σ → α → Option σ) (P : σ → Prop)
    (hf : ∀ s a s', f s a = some s' → P s → P s') :
    ∀ (l : List α) (s s' : σ), optFold f s l = some s' → P s → P s' := by
  intro l
  induction l with
  | nil =>
    intro s s' h hp
    simp only [optFold, Option.some.injEq] at h
    exact h ▸ hp
  | cons a l ih =>
    intro s s' h hp
    simp only [optFold] at h
    cases hfa : f s a with
    | none => rw [hfa] at h; exact absurd h (by simp)
    | some s₁ =>
      rw [hfa] at h
      exact ih s₁ s' h (hf s a s₁ hfa hp)

theorem foldl_pres {β α : Type} (f : β → α → β) (P : β → Prop)
    (hf : ∀ b a, P b → P (f b a)) :
    ∀ (l : List α) (b : β), P b → P (List.foldl f b l) := by
  intro l
  induction l with
  | nil => intro b hb; simpa using hb
  | cons a l ih => intro b hb; exact ih (f b a) (hf b a hb)

theorem list_set_getElem?_eq {α : Type} :
    ∀ (l : List α) (i : ℕ) (a : α), l[i]? = some a → l.set i a = l := by
  intro l
  induction l with
  | nil => intro i a h; simp at h
  | cons x l ih =>
    intro i a h
    cases i with
    | zero => simp_all
    | succ n =>
      simp only [List.getElem?_cons_succ] at h
      simp [List.set, ih n a h]

theorem string_append_ne_empty (s t : String) (h : s.length ≠ 0) : s ++ t ≠ "" := by
  intro he
  have hl : s.length + t.length = String.length "" := by
    rw [← String.length_append, he]
  have h0 : String.length "" = 0 := rfl
  omega

/-! ## C3: the damage formula -/

theorem max_one_pyTrunc_eq_floor (q : ℚ) : max 1 (pyTrunc q) = max 1 ⌊q⌋ := by
  unfold pyTrunc
  split
  · rfl
  · rename_i h
    push_neg at h
    have h1 : (⌈q⌉ : ℤ) ≤ 0 := Int.ceil_le.mpr (by simpa using h.le)
    have h2 : (⌊q⌋ : ℤ) ≤ 0 := Int.floor_nonpos h.le
    omega

/-- C3: `take_damage` with `is_arts = false` inflicts
`max 1 (atk - def)`; with `is_arts = true` it inflicts
`max 1 ⌊atk * (1 - magic_resistance)⌋`; the actual damage is always at
least 1; hp is clamped at 0; and the entity is marked not alive exactly
when its (clamped) hp reaches 0. -/
theorem c3_take_damage_spec (e : GameEntity) (damage : ℤ) (is_arts : Bool) :
    (e.take_damage damage is_arts).1 =
      (if is_arts then max 1 ⌊(damage : ℚ) * (1 - e.magic_resistance)⌋
       else max 1 (damage - e.def_)) ∧
    1 ≤ (e.take_damage damage is_arts).1 ∧
    ((e.take_damage damage is_arts).2).current_hp =
      max 0 (e.current_hp - (e.take_damage damage is_arts).1) ∧
    ((e.take_damage damage is_arts).2).is_alive =
      (if ((e.take_damage damage is_arts).2).current_hp = 0 then false else e.is_alive) := by
  refine ⟨?_, ?_, ?_, ?_⟩
  · simp only [GameEntity.take_damage]
    cases is_arts <;> simp [max_one_pyTrunc_eq_floor]
  · simp only [GameEntity.take_damage]
    split <;> exact le_max_left _ _
  · simp only [GameEntity.take_damage]
    split <;> (split <;> rfl)
  · simp only [GameEntity.take_damage]
    split
    all_goals
      split
      · rename_i hz
        dsimp only
        rw [if_pos (le_antisymm hz (le_max_left _ _))]
      · rename_i hz
        dsimp only
        rw [if_neg (fun h => hz (le_of_eq h))]

/-! ## C9: orthogonal route generation -/

/-- "Differs by exactly one row or exactly one column, never both". -/
def orthStep (a b : Position) : Prop :=
  (b.row - a.row).natAbs + (b.col - a.col).natAbs = 1

/-- `n` unit steps from `a` (exclusive) in direction `sign`. -/
def intStepsN (a sign : ℤ) : ℕ → List ℤ
  | 0 => []
  | n + 1 => (a + sign) :: intStepsN (a + sign) sign n

/-- The integers from `a` (exclusive) to `b` (inclusive), one step at a
time. -/
def intSteps (a b : ℤ) : List ℤ :=
  if a ≤ b then intStepsN a 1 (b - a).toNat else intStepsN a (-1) (a - b).toNat

/-- Row-first characterization of an orthogonal segment: first walk the
row to the target row (column fixed), then walk the column. -/
def rowFirstPath (s t : Position) : List Position :=
  (intSteps s.row t.row).map (fun r => { row := r, col := s.col }) ++
  (intSteps s.col t.col).map (fun c => { row := t.row, col := c })

theorem intSteps_self (a : ℤ) : intSteps a a = [] := by
  simp [intSteps, intStepsN]

theorem intSteps_lt (a b : ℤ) (h : a < b) : intSteps a b = (a + 1) :: intSteps (a + 1) b := by
  have h1 : (b - a).toNat = (b - (a + 1)).toNat + 1 := by omega
  simp only [intSteps, if_pos h.le, if_pos (show a + 1 ≤ b by omega), h1, intStepsN]

theorem intSteps_gt (a b : ℤ) (h : b < a) : intSteps a b = (a - 1) :: intSteps (a - 1) b := by
  have h1 : (a - b).toNat = (a - 1 - b).toNat + 1 := by omega
  have h2 : ¬ a ≤ b := by omega
  have h5 : a + -1 = a - 1 := by ring
  by_cases h3 : a - 1 ≤ b
  · have h6 : (b - (a - 1)).toNat = 0 := by omega
    have h7 : (a - 1 - b).toNat = 0 := by omega
    simp only [intSteps, if_neg h2, h1, intStepsN, if_pos h3, h6, h7]
    rw [h5]
  · simp only [intSteps, if_neg h2, if_neg h3, h1, intStepsN]
    rw [h5]

theorem findPathLoop_eq_rowFirstPath : ∀ c t : Position, findPathLoop c t = rowFirstPath c t := by
  intro c t
  induction c, t using findPathLoop.induct with
  | case1 t =>
    rw [findPathLoop, if_pos rfl]
    simp [rowFirstPath, intSteps_self]
  | case2 c t hne nxt ih =>
    rw [findPathLoop, if_neg hne]
    show stepToward c t :: findPathLoop (stepToward c t) t = rowFirstPath c t
    rw [show nxt = stepToward c t from rfl] at ih
    rw [ih]
    by_cases hr1 : c.row < t.row
    · have hs : stepToward c t = { row := c.row + 1, col := c.col } := by
        simp [stepToward, if_pos hr1]
      rw [hs]
      simp only [rowFirstPath, intSteps_lt c.row t.row hr1, List.map_cons, List.cons_append]
    · by_cases hr2 : c.row > t.row
      · have hs : stepToward c t = { row := c.row - 1, col := c.col } := by
          simp only [stepToward, if_neg hr1, if_pos hr2]
        rw [hs]
        simp only [rowFirstPath, intSteps_gt c.row t.row hr2, List.map_cons, List.cons_append]
      · have hre : c.row = t.row := by omega
        by_cases hc1 : c.col < t.col
        · have hs : stepToward c t = { row := c.row, col := c.col + 1 } := by
            simp only [stepToward, if_neg hr1, if_neg hr2, if_pos hc1]
          rw [hs]
          simp only [rowFirstPath, hre, intSteps_self, List.map_nil, List.nil_append,
            intSteps_lt c.col t.col hc1, List.map_cons]
        · have hc2 : c.col > t.col := by
            rcases lt_trichotomy c.col t.col with h | h | h
            · exact absurd h hc1
            · exact absurd (by cases c; cases t; simp_all) hne
            · exact h
          have hs : stepToward c t = { row := c.row, col := c.col - 1 } := by
            simp only [stepToward, if_neg hr1, if_neg hr2, if_neg hc1, if_pos hc2]
          rw [hs]
          simp only [rowFirstPath, hre, intSteps_self, List.map_nil, List.nil_append,
            intSteps_gt c.col t.col hc2, List.map_cons]

theorem orthStep_stepToward (c t : Position) (h : c ≠ t) : orthStep c (stepToward c t) := by
  have hne : c.row ≠ t.row ∨ c.col ≠ t.col := by
    by_contra hc
    push_neg at hc
    exact h (by cases c; cases t; simp_all)
  unfold orthStep stepToward
  split_ifs with h1 h2 h3 h4
  · simp
  · simp
  · simp
  · simp
  · simp only [Position.mk.injEq] at hne ⊢
    omega

theorem chain_findPathLoop : ∀ c t : Position, List.Chain' orthStep (c :: findPathLoop c t) := by
  intro c t
  induction c, t using findPathLoop.induct with
  | case1 t =>
    rw [findPathLoop, if_pos rfl]
    simp
  | case2 c t hne nxt ih =>
    rw [findPathLoop, if_neg hne]
    show List.Chain' orthStep (c :: stepToward c t :: findPathLoop (stepToward c t) t)
    rw [show nxt = stepToward c t from rfl] at ih
    exact List.chain'_cons.mpr ⟨orthStep_stepToward c t hne, ih⟩

theorem last_findPathLoop : ∀ c t : Position, (c :: findPathLoop c t).getLast? = some t := by
  intro c t
  induction c, t using findPathLoop.induct with
  | case1 t =>
    rw [findPathLoop, if_pos rfl]
    rfl
  | case2 c t hne nxt ih =>
    rw [findPathLoop, if_neg hne]
    show (c :: stepToward c t :: findPathLoop (stepToward c t) t).getLast? = some t
    rw [show nxt = stepToward c t from rfl] at ih
    rw [List.getLast?_cons_cons]
    exact ih

theorem chain_generatePathAux : ∀ (cps : List Position) (c t : Position),
    List.Chain' orthStep (c :: generatePathAux false c cps t) := by
  intro cps
  induction cps with
  | nil =>
    intro c t
    simp only [generatePathAux, findPath, Bool.false_eq_true, if_neg (by simp : ¬ False)]
    exact chain_findPathLoop c t
  | cons cp cps ih =>
    intro c t
    simp only [generatePathAux]
    have h1 : c :: (findPath false c cp ++ generatePathAux false cp cps t) =
        (c :: findPathLoop c cp) ++ generatePathAux false cp cps t := by
      simp [findPath]
    rw [h1]
    have h2 := ih cp t
    have h3 := List.chain'_cons'.mp h2
    refine List.Chain'.append (chain_findPathLoop c cp) h3.2 ?_
    intro x hx y hy
    rw [last_findPathLoop c cp] at hx
    simp only [Option.mem_def, Option.some.injEq] at hx
    subst hx
    exact h3.1 y hy

/-- The segment generator exactly as the specification words it: at each
step reduce the coordinate with the larger remaining gap, prioritizing
row before column (ties and the gap comparison resolved in favour of the
row).  This renders the spec's description, to be compared with
`findPathLoop`, the generator the source implements. -/
def stepSpecLG (current target : Position) : Position :=
  let dr := (target.row - current.row).natAbs
  let dc := (target.col - current.col).natAbs
  if dr ≥ dc ∧ dr ≠ 0 then
    if current.row < target.row then { current with row := current.row + 1 }
    else { current with row := current.row - 1 }
  else if dc ≠ 0 then
    if current.col < target.col then { current with col := current.col + 1 }
    else { current with col := current.col - 1 }
  else current

/-- The spec-worded stepping loop; each step reduces the total remaining
gap by exactly one, so that amount of fuel runs the loop to completion. -/
def findPathSpecFuel : ℕ → Position → Position → List Position
  | 0, _, _ => []
  | n + 1, c, t =>
    if c = t then []
    else stepSpecLG c t :: findPathSpecFuel n (stepSpecLG c t) t

def findPathSpec (c t : Position) : List Position :=
  findPathSpecFuel ((c.row - t.row).natAbs + (c.col - t.col).natAbs) c t

/-- C9 (counterexample): the claim describes orthogonal segments as
repeatedly reducing the coordinate with the larger remaining gap.  On the
segment (0,0) → (1,2) the column gap (2) exceeds the row gap (1), so that
rule moves the column first, but `Route._find_path` steps the row first:
the two generators disagree at this concrete input. -/
theorem c9_larger_gap_counterexample :
    findPathLoop { row := 0, col := 0 } { row := 1, col := 2 } ≠
    findPathSpec { row := 0, col := 0 } { row := 1, col := 2 } := by
  rw [findPathLoop_eq_rowFirstPath]
  decide

/-- C9 (amended): with diagonal movement disabled every point-to-point
segment is generated by stepping the row coordinate one tile at a time
until it matches the endpoint's row and then stepping the column
(`rowFirstPath`), and consequently every pair of consecutive waypoints in
the flattened path differs by exactly one row or exactly one column,
never both. -/
theorem c9_orthogonal_route (s t : Position) (cps : List Position) :
    findPathLoop s t = rowFirstPath s t ∧
    List.Chain' orthStep (generate_path false s cps t) := by
  refine ⟨findPathLoop_eq_rowFirstPath s t, ?_⟩
  simp only [generate_path]
  exact chain_generatePathAux cps s t

/-! ## C10: timed skill duration -/

theorem optFold_inactive (δs : List ℚ) :
    ∀ (s s' : Skill), s.is_active = false →
      optFold Skill.update_duration s δs = some s' → s' = s := by
  induction δs with
  | nil => intro s s' _ h; simpa [optFold] using h.symm
  | cons d ds ih =>
    intro s s' hs h
    simp only [optFold] at h
    have h1 : s.update_duration d = some s := by
      unfold Skill.update_duration
      rw [if_pos hs]
    rw [h1] at h
    exact ih s s' hs h

theorem dur_countdown (lvl : SkillLevel) (hsec : lvl.duration_type = DurationType.SECONDS) :
    ∀ (δs : List ℚ), (∀ d ∈ δs, 0 ≤ d) →
    ∀ (s s' : Skill), s.get_level = some lvl → s.is_active = true →
      0 < s.remaining_duration →
      optFold Skill.update_duration s δs = some s' →
      (δs.sum < s.remaining_duration →
        s'.is_active = true ∧ s'.remaining_duration = s.remaining_duration - δs.sum) ∧
      (s.remaining_duration ≤ δs.sum → s'.is_active = false) := by
  intro δs
  induction δs with
  | nil =>
    intro _ s s' hl ha hr h
    simp only [optFold, Option.some.injEq] at h
    subst h
    refine ⟨fun _ => ⟨ha, by simp⟩, fun hc => absurd hc (by simpa using hr)⟩
  | cons d ds ih =>
    intro hnn s s' hl ha hr h
    have hd : 0 ≤ d := hnn d (by simp)
    have hds : ∀ x ∈ ds, 0 ≤ x := fun x hx => hnn x (by simp [hx])
    have hsum : 0 ≤ ds.sum := List.sum_nonneg hds
    simp only [optFold] at h
    have hupd : s.update_duration d =
        some (if s.remaining_duration - d ≤ 0
          then ({ s with remaining_duration := s.remaining_duration - d } : Skill).deactivate
          else { s with remaining_duration := s.remaining_duration - d }) := by
      unfold Skill.update_duration
      rw [if_neg (by simp [ha]), hl]
      dsimp only
      rw [if_pos hsec]
      split <;> rfl
    rw [hupd] at h
    by_cases hz : s.remaining_duration - d ≤ 0
    · rw [if_pos hz] at h
      have hs' := optFold_inactive ds _ s' rfl h
      subst hs'
      constructor
      · intro hlt
        exfalso
        rw [List.sum_cons] at hlt
        linarith
      · intro _
        rfl
    · rw [if_neg hz] at h
      push_neg at hz
      have := ih hds { s with remaining_duration := s.remaining_duration - d } s'
        (by simpa [Skill.get_level] using hl) ha (by simpa using hz) h
      rw [List.sum_cons]
      constructor
      · intro hlt
        have h1 := this.1 (by simp; linarith)
        refine ⟨h1.1, ?_⟩
        rw [h1.2]
        simp
        ring
      · intro hge
        exact this.2 (by simp; linarith)

/-- C10: for a skill whose current level has duration type SECONDS with
duration `D`, a successful activation marks it active with a countdown of
`D`, and under repeated nonnegative `update_duration` calls it stays
active while the accumulated elapsed time is strictly below `D` and is
inactive as soon as the accumulated elapsed time reaches or exceeds `D`
(applied to every prefix of the tick list, this is exactly "inactive from
the first update at which the total reaches `D`"). -/
theorem c10_timed_skill_duration (lvl : SkillLevel) (s s' : Skill)
    (hlvl : s.get_level = some lvl)
    (hsec : lvl.duration_type = DurationType.SECONDS)
    (hact : s.activate = some (true, s')) :
    s'.is_active = true ∧ s'.remaining_duration = lvl.duration ∧
    (0 < lvl.duration →
      ∀ (δs : List ℚ), (∀ d ∈ δs, 0 ≤ d) →
      ∀ s'' : Skill, optFold Skill.update_duration s' δs = some s'' →
        (δs.sum < lvl.duration → s''.is_active = true) ∧
        (lvl.duration ≤ δs.sum → s''.is_active = false)) := by
  have hmain : s'.is_active = true ∧ s'.remaining_duration = lvl.duration ∧ s'.get_level = some lvl := by
    unfold Skill.activate at hact
    revert hact
    cases hca : s.can_activate with
    | none => intro hact; simp at hact
    | some can =>
      cases hsa : s.should_auto_activate with
      | none => intro hact; simp at hact
      | some auto =>
        intro hact
        dsimp only at hact
        rw [hlvl] at hact
        split_ifs at hact with hno
        · simp at hact
        all_goals
          dsimp only at hact
          rw [if_pos hsec] at hact
          simp only [Option.some.injEq, Prod.mk.injEq] at hact
          obtain ⟨-, h2⟩ := hact
          subst h2
          refine ⟨rfl, rfl, ?_⟩
          simp only [Skill.get_level]
          split <;> simpa [Skill.get_level] using hlvl
  refine ⟨hmain.1, hmain.2.1, ?_⟩
  intro hpos δs hnn s'' hfold
  have h := dur_countdown lvl hsec δs hnn s' s'' hmain.2.2 hmain.1
    (by rw [hmain.2.1]; exact hpos) hfold
  rw [hmain.2.1] at h
  exact ⟨fun hlt => (h.1 hlt).1, h.2⟩

def lvlW : SkillLevel := { duration_type := DurationType.SECONDS, duration := 5, sp_cost := 10 }

def skW : Skill := { levels := [lvlW], current_sp := 10 }

def skWA : Skill := { skW with current_sp := 0, is_active := true, remaining_duration := 5 }

def skWC : Skill := { skWA with is_active := false, remaining_duration := 0 }

theorem skW_activate : skW.activate = some (true, skWA) := by
  norm_num [Skill.activate, Skill.can_activate, Skill.should_auto_activate, Skill.get_level,
    skW, skWA, lvlW]
  norm_num +decide

theorem skWA_fold3 : optFold Skill.update_duration skWA [2, 2, 2] = some skWC := by
  norm_num [optFold, Skill.update_duration, Skill.get_level, Skill.deactivate,
    skW, skWA, skWC, lvlW]

theorem c10_timed_skill_duration_witness :
    skW.get_level = some lvlW ∧
    skW.activate = some (true, skWA) ∧
    optFold Skill.update_duration skWA [2, 2, 2] = some skWC ∧
    skWC.is_active = false := by
  have h := c10_timed_skill_duration lvlW skW skWA rfl rfl skW_activate
  exact ⟨rfl, skW_activate, skWA_fold3,
    (h.2.2 (by norm_num [lvlW]) [2, 2, 2] (by norm_num) skWC skWA_fold3).2 (by norm_num [lvlW])⟩

/-! ## Deployment: inversion lemmas shared by C4, C5, C6, C8 -/

theorem can_deploy_operator_eq (t : Tile) (op : Operator) :
    t.can_deploy_operator op =
      (!t.deployed_operator.isSome && GameMap.check_operator_tile_compatibility op t) := by
  cases hocc : t.deployed_operator.isSome <;> cases hb : t.buildable_type <;>
    simp [hocc, hb, Tile.can_deploy_operator, GameMap.check_operator_tile_compatibility]

theorem tile_index_at_valid (st : GameMap) (p : Position) (i : ℕ)
    (h : st.tile_index_at p = some i) : st.is_valid_position p = true := by
  unfold GameMap.tile_index_at at h
  by_cases hv : st.is_valid_position p = true
  · exact hv
  · rw [if_neg (by simpa using hv)] at h
    simp at h

theorem get_tile_at_valid (st : GameMap) (p : Position) (i : ℕ) (t : Tile)
    (h : st.get_tile_at p = some (i, t)) : st.is_valid_position p = true := by
  unfold GameMap.get_tile_at at h
  rcases hti : st.tile_index_at p with _ | j
  · rw [hti] at h; simp at h
  · exact tile_index_at_valid st p j hti

theorem str_len_append_ne_zero (s t : String) (h : s.length ≠ 0) : (s ++ t).length ≠ 0 := by
  rw [String.length_append]
  omega

/-- The world state `deploy_operator` produces on success. -/
def GameMap.deploy_success_state (st : GameMap) (u : ℕ) (op : Operator) (p : Position)
    (d : Direction) (i : ℕ) (t : Tile) : GameMap :=
  { st with
    tiles := st.tiles.set i { t with deployed_operator := some u }
    op_heap := st.op_heap.set u (op.deploy p d)
    deployed_operators := st.deployed_operators ++ [u]
    current_cost := st.current_cost - (op.deploy_cost : ℚ) }

theorem deploy_operator_inv (st : GameMap) (u : ℕ) (op : Operator) (p : Position) (d : Direction)
    (res : OperationResult) (st' : GameMap)
    (hop : st.op_heap[u]? = some op)
    (h : st.deploy_operator u p d = some (res, st')) :
    (∃ i t, st.get_tile_at p = some (i, t) ∧
      t.deployed_operator = Option.none ∧
      GameMap.check_operator_tile_compatibility op t = true ∧
      ¬ st.current_cost < (op.deploy_cost : ℚ) ∧
      st.deployed_operators.length < st.character_limit ∧
      res = OperationResult.success_result ∧
      st' = st.deploy_success_state u op p d i t) ∨
    (res.success = false ∧ st' = st ∧ ∃ msg, res.reason = some msg ∧ msg.length ≠ 0) := by
  unfold GameMap.deploy_operator at h
  rw [hop] at h
  dsimp only at h
  by_cases hv : st.is_valid_position p = true
  case neg =>
    rw [if_pos (by simpa using hv)] at h
    simp only [Option.some.injEq, Prod.mk.injEq] at h
    obtain ⟨hres, hst⟩ := h
    exact Or.inr ⟨by rw [← hres]; rfl, hst.symm, _, by rw [← hres]; rfl,
      str_len_append_ne_zero _ _ (by decide)⟩
  case pos =>
  rw [if_neg (by simp [hv])] at h
  rcases hgt : st.get_tile_at p with _ | ⟨i, t⟩
  case none =>
    rw [hgt] at h
    dsimp only at h
    simp only [Option.some.injEq, Prod.mk.injEq] at h
    obtain ⟨hres, hst⟩ := h
    exact Or.inr ⟨by rw [← hres]; rfl, hst.symm, _, by rw [← hres]; rfl,
      str_len_append_ne_zero _ _ (by decide)⟩
  case some =>
  rw [hgt] at h
  dsimp only at h
  by_cases hocc : t.deployed_operator.isSome = true
  case pos =>
    rw [if_pos hocc] at h
    simp only [Option.some.injEq, Prod.mk.injEq] at h
    obtain ⟨hres, hst⟩ := h
    exact Or.inr ⟨by rw [← hres]; rfl, hst.symm, _, by rw [← hres]; rfl,
      str_len_append_ne_zero _ _ (by decide)⟩
  case neg =>
  rw [if_neg hocc] at h
  by_cases hcompat : GameMap.check_operator_tile_compatibility op t = true
  case neg =>
    rw [if_pos (by simpa using hcompat)] at h
    simp only [Option.some.injEq, Prod.mk.injEq] at h
    obtain ⟨hres, hst⟩ := h
    refine Or.inr ⟨by rw [← hres]; rfl, hst.symm, _, by rw [← hres]; rfl, ?_⟩
    repeat apply str_len_append_ne_zero
    decide
  case pos =>
  rw [if_neg (by simp [hcompat])] at h
  by_cases hcost : st.current_cost < (op.deploy_cost : ℚ)
  case pos =>
    rw [if_pos hcost] at h
    simp only [Option.some.injEq, Prod.mk.injEq] at h
    obtain ⟨hres, hst⟩ := h
    refine Or.inr ⟨by rw [← hres]; rfl, hst.symm, _, by rw [← hres]; rfl, ?_⟩
    repeat apply str_len_append_ne_zero
    decide
  case neg =>
  rw [if_neg hcost] at h
  by_cases hlim : st.deployed_operators.length ≥ st.character_limit
  case pos =>
    rw [if_pos hlim] at h
    simp only [Option.some.injEq, Prod.mk.injEq] at h
    obtain ⟨hres, hst⟩ := h
    refine Or.inr ⟨by rw [← hres]; rfl, hst.symm, _, by rw [← hres]; rfl, ?_⟩
    repeat apply str_len_append_ne_zero
    decide
  case neg =>
  rw [if_neg hlim] at h
  have hcan : t.can_deploy_operator op = true := by
    rw [can_deploy_operator_eq]
    simp [hocc, hcompat]
  rw [if_pos hcan] at h
  simp only [Option.some.injEq, Prod.mk.injEq] at h
  obtain ⟨hres, hst⟩ := h
  refine Or.inl ⟨i, t, rfl, Option.not_isSome_iff_eq_none.mp (by simp [hocc]),
    hcompat, hcost, by omega, hres.symm, hst.symm⟩

theorem deploy_operator_success (st : GameMap) (u : ℕ) (op : Operator) (p : Position)
    (d : Direction) (i : ℕ) (t : Tile)
    (hop : st.op_heap[u]? = some op)
    (hgt : st.get_tile_at p = some (i, t))
    (hcan : t.can_deploy_operator op = true)
    (hcost : (op.deploy_cost : ℚ) ≤ st.current_cost)
    (hlim : st.deployed_operators.length < st.character_limit) :
    st.deploy_operator u p d =
      some (OperationResult.success_result, st.deploy_success_state u op p d i t) := by
  have hv := get_tile_at_valid st p i t hgt
  have hcan' := hcan
  rw [can_deploy_operator_eq] at hcan'
  simp only [Bool.and_eq_true, Bool.not_eq_true'] at hcan'
  obtain ⟨hocc, hcompat⟩ := hcan'
  unfold GameMap.deploy_operator
  rw [hop]
  dsimp only
  rw [if_neg (by simp [hv]), hgt]
  dsimp only
  rw [if_neg (by simp [hocc]), if_neg (by simp [hcompat]), if_neg (not_lt.mpr hcost),
    if_neg (by omega), if_pos hcan]
  rfl

theorem deploy_operator_insufficient_cost (st : GameMap) (u : ℕ) (op : Operator) (p : Position)
    (d : Direction) (i : ℕ) (t : Tile)
    (hop : st.op_heap[u]? = some op)
    (hgt : st.get_tile_at p = some (i, t))
    (hcan : t.can_deploy_operator op = true)
    (hcost : st.current_cost < (op.deploy_cost : ℚ)) :
    st.deploy_operator u p d =
      some (OperationResult.failure_result
        ("费用不足: 需要" ++ toString op.deploy_cost ++ "，当前" ++ ratStr st.current_cost), st) := by
  have hv := get_tile_at_valid st p i t hgt
  have hcan' := hcan
  rw [can_deploy_operator_eq] at hcan'
  simp only [Bool.and_eq_true, Bool.not_eq_true'] at hcan'
  obtain ⟨hocc, hcompat⟩ := hcan'
  unfold GameMap.deploy_operator
  rw [hop]
  dsimp only
  rw [if_neg (by simp [hv]), hgt]
  dsimp only
  rw [if_neg (by simp [hocc]), if_neg (by simp [hcompat]), if_pos hcost]

/-- C4: `deploy_operator` never succeeds where `can_deploy_at` is false,
and whenever `can_deploy_at` holds, the cost is covered and the roster is
below the character limit, `deploy_operator` succeeds. -/
theorem c4_deploy_agrees_with_can_deploy (st : GameMap) (u : ℕ) (op : Operator)
    (p : Position) (d : Direction)
    (hop : st.op_heap[u]? = some op) :
    (∀ (res : OperationResult) (st' : GameMap),
      st.deploy_operator u p d = some (res, st') → res.success = true →
      st.can_deploy_at p op = true) ∧
    (st.can_deploy_at p op = true →
      (op.deploy_cost : ℚ) ≤ st.current_cost →
      st.deployed_operators.length < st.character_limit →
      ∃ st', st.deploy_operator u p d = some (OperationResult.success_result, st')) := by
  constructor
  · intro res st' h hs
    rcases deploy_operator_inv st u op p d res st' hop h with
      ⟨i, t, hgt, hocc, hcompat, -, -, -, -⟩ | ⟨hfail, -, -⟩
    · unfold GameMap.can_deploy_at
      rw [hgt]
      dsimp only
      rw [can_deploy_operator_eq]
      simp [hocc, hcompat]
    · rw [hs] at hfail
      exact absurd hfail (by simp)
  · intro hcd hcost hlim
    unfold GameMap.can_deploy_at at hcd
    rcases hgt : st.get_tile_at p with _ | ⟨i, t⟩
    · rw [hgt] at hcd; simp at hcd
    · rw [hgt] at hcd
      dsimp only at hcd
      exact ⟨_, deploy_operator_success st u op p d i t hop hgt hcd hcost hlim⟩

/-- C5: a failing `deploy_operator` call returns a structured failure
with a non-empty reason and leaves the world state unchanged; in
particular, an undeployed operator on a deployable tile whose deploy
cost exceeds the current cost fails with the insufficient-cost reason. -/
theorem c5_deploy_failure_atomic (st : GameMap) (u : ℕ) (op : Operator)
    (p : Position) (d : Direction) (res : OperationResult) (st' : GameMap)
    (hop : st.op_heap[u]? = some op)
    (hcall : st.deploy_operator u p d = some (res, st')) :
    (res.success = false → st' = st ∧ ∃ r, res.reason = some r ∧ r.length ≠ 0) ∧
    (st.can_deploy_at p op = true → op.is_deployed = false →
      st.current_cost < (op.deploy_cost : ℚ) →
      res.success = false ∧
      res.reason = some ("费用不足: 需要" ++ toString op.deploy_cost ++ "，当前" ++ ratStr st.current_cost)) := by
  constructor
  · intro hf
    rcases deploy_operator_inv st u op p d res st' hop hcall with
      ⟨-, -, -, -, -, -, -, hres, -⟩ | ⟨-, hst, r, hr, hlen⟩
    · rw [hres] at hf
      exact absurd hf (by simp [OperationResult.success_result])
    · exact ⟨hst, r, hr, hlen⟩
  · intro hcd _ hcost
    unfold GameMap.can_deploy_at at hcd
    rcases hgt : st.get_tile_at p with _ | ⟨i, t⟩
    · rw [hgt] at hcd; simp at hcd
    · rw [hgt] at hcd
      dsimp only at hcd
      have heq := deploy_operator_insufficient_cost st u op p d i t hop hgt hcd hcost
      rw [heq] at hcall
      simp only [Option.some.injEq, Prod.mk.injEq] at hcall
      rw [← hcall.1]
      exact ⟨rfl, rfl⟩

def opW4 : Operator :=
  { entity_id := "char_fen", name := "Fen", position := PosVal.pstr "MELEE", deploy_cost := 5 }

def W4 : GameMap :=
  { rows := 1, cols := 1, map_layout := [[0]],
    tiles := [{ buildable_type := BuildableType.MELEE }],
    current_cost := 20, op_heap := [opW4] }

theorem c4_deploy_agrees_with_can_deploy_witness :
    W4.can_deploy_at { row := 0, col := 0 } opW4 = true ∧
    (W4.deploy_operator 0 { row := 0, col := 0 } Direction.RIGHT).map (fun r => r.1) =
      some OperationResult.success_result := by
  have h := (c4_deploy_agrees_with_can_deploy W4 0 opW4 { row := 0, col := 0 } Direction.RIGHT rfl).2
    (by decide) (by norm_num [W4, opW4]) (by decide)
  obtain ⟨st', hst'⟩ := h
  exact ⟨by decide, by rw [hst']; rfl⟩

def W5 : GameMap :=
  { rows := 1, cols := 1, map_layout := [[0]],
    tiles := [{ buildable_type := BuildableType.MELEE }],
    current_cost := 3, op_heap := [opW4] }

theorem W5_call :
    W5.deploy_operator 0 { row := 0, col := 0 } Direction.RIGHT =
      some (OperationResult.failure_result
        ("费用不足: 需要" ++ toString opW4.deploy_cost ++ "，当前" ++ ratStr W5.current_cost), W5) :=
  deploy_operator_insufficient_cost W5 0 opW4 { row := 0, col := 0 } Direction.RIGHT 0
    { buildable_type := BuildableType.MELEE } rfl rfl (by decide) (by norm_num [W5, opW4])

theorem c5_deploy_failure_atomic_witness :
    W5.can_deploy_at { row := 0, col := 0 } opW4 = true ∧
    opW4.is_deployed = false ∧
    W5.current_cost < (opW4.deploy_cost : ℚ) ∧
    (OperationResult.failure_result
        ("费用不足: 需要" ++ toString opW4.deploy_cost ++ "，当前" ++ ratStr W5.current_cost)).success = false ∧
    (OperationResult.failure_result
        ("费用不足: 需要" ++ toString opW4.deploy_cost ++ "，当前" ++ ratStr W5.current_cost)).reason =
      some ("费用不足: 需要" ++ toString opW4.deploy_cost ++ "，当前" ++ ratStr W5.current_cost) := by
  have h := (c5_deploy_failure_atomic W5 0 opW4 { row := 0, col := 0 } Direction.RIGHT _ _ rfl W5_call).2
    (by decide) rfl (by norm_num [W5, opW4])
  exact ⟨by decide, rfl, by norm_num [W5, opW4], h.1, h.2⟩

/-! ## C6/C8: retreat after a successful deploy -/

theorem retreat_after_deploy (st : GameMap) (u : ℕ) (op : Operator) (p : Position)
    (d : Direction) (i : ℕ) (t : Tile)
    (hop : st.op_heap[u]? = some op)
    (hti : st.tile_index_at p = some i)
    (hts : st.tiles[i]? = some t)
    (hocc : t.deployed_operator = Option.none)
    (hnot : u ∉ st.deployed_operators) :
    (st.deploy_success_state u op p d i t).retreat_operator u =
      some (true, { st with
        op_heap := st.op_heap.set u ((op.deploy p d).retreat.retreat)
        current_cost := st.current_cost - (op.deploy_cost : ℚ) }) := by
  have hul : u < st.op_heap.length := (List.getElem?_eq_some.mp hop).1
  have hil : i < st.tiles.length := (List.getElem?_eq_some.mp hts).1
  have htile : ({ t with deployed_operator := Option.none } : Tile) = t := by
    obtain ⟨bt, occ⟩ := t
    simp only at hocc
    rw [hocc]
  unfold GameMap.retreat_operator GameMap.deploy_success_state
  rw [List.getElem?_set_self hul]
  dsimp only
  rw [if_neg (by simp)]
  have hti1 : GameMap.tile_index_at
      { st with
        tiles := st.tiles.set i { t with deployed_operator := some u }
        op_heap := st.op_heap.set u (op.deploy p d)
        deployed_operators := st.deployed_operators ++ [u]
        current_cost := st.current_cost - (op.deploy_cost : ℚ) } p = some i := hti
  have hgt1 : GameMap.get_tile_at
      { st with
        tiles := st.tiles.set i { t with deployed_operator := some u }
        op_heap := st.op_heap.set u (op.deploy p d)
        deployed_operators := st.deployed_operators ++ [u]
        current_cost := st.current_cost - (op.deploy_cost : ℚ) } p =
      some (i, { t with deployed_operator := some u }) := by
    unfold GameMap.get_tile_at
    rw [hti1]
    dsimp only
    rw [List.getElem?_set_self (by simpa using hil)]
  rw [show (op.deploy p d).position = PosVal.pcoord p from rfl]
  dsimp only
  rw [hgt1]
  dsimp only [GameMap.remove_operator_at]
  rw [List.getElem?_set_self hul]
  dsimp only
  rw [List.getElem?_set_self (by simpa using hul)]
  dsimp only
  rw [List.set_set, List.set_set, htile, list_set_getElem?_eq st.tiles i t hts]
  rw [List.erase_append_right _ (by simpa using hnot), List.erase_cons_head, List.append_nil,
    List.set_set]

theorem get_tile_at_eq (st : GameMap) (p : Position) (i : ℕ) (t : Tile)
    (h : st.get_tile_at p = some (i, t)) :
    st.tile_index_at p = some i ∧ st.tiles[i]? = some t := by
  unfold GameMap.get_tile_at at h
  rcases hti : st.tile_index_at p with _ | j
  · rw [hti] at h; simp at h
  · rw [hti] at h
    dsimp only at h
    rcases hts : st.tiles[j]? with _ | t'
    · rw [hts] at h; simp at h
    · rw [hts] at h
      simp only [Option.some.injEq, Prod.mk.injEq] at h
      obtain ⟨hj, ht⟩ := h
      subst hj
      subst ht
      exact ⟨rfl, hts⟩

/-- C6 (amended): if the operator is not already in the deployed roster
when `deploy_operator` succeeds, an immediately following
`retreat_operator` returns true and restores the roster and every tile's
occupancy to exactly their pre-deploy values, while the current cost
remains debited by the operator's deploy cost. -/
theorem c6_deploy_retreat_restores (st : GameMap) (u : ℕ) (op : Operator) (p : Position)
    (d : Direction) (res : OperationResult) (st₁ st₂ : GameMap) (b : Bool)
    (hop : st.op_heap[u]? = some op)
    (hnot : u ∉ st.deployed_operators)
    (hdep : st.deploy_operator u p d = some (res, st₁))
    (hsucc : res.success = true)
    (hret : st₁.retreat_operator u = some (b, st₂)) :
    b = true ∧
    st₂.deployed_operators = st.deployed_operators ∧
    st₂.tiles = st.tiles ∧
    st₂.current_cost = st.current_cost - (op.deploy_cost : ℚ) := by
  rcases deploy_operator_inv st u op p d res st₁ hop hdep with
    ⟨i, t, hgt, hocc, -, -, -, -, hst1⟩ | ⟨hfail, -, -⟩
  · obtain ⟨hti, hts⟩ := get_tile_at_eq st p i t hgt
    have hr := retreat_after_deploy st u op p d i t hop hti hts hocc hnot
    rw [hst1, hr] at hret
    simp only [Option.some.injEq, Prod.mk.injEq] at hret
    obtain ⟨hb, hst2⟩ := hret
    rw [← hb, ← hst2]
    exact ⟨rfl, rfl, rfl, rfl⟩
  · rw [hfail] at hsucc
    exact absurd hsucc (by simp)

def P4 : Position := { row := 0, col := 0 }

def tileM4 : Tile := { buildable_type := BuildableType.MELEE }

def ST4a : GameMap := W4.deploy_success_state 0 opW4 P4 Direction.RIGHT 0 tileM4

def W4r : GameMap :=
  { W4 with
    op_heap := W4.op_heap.set 0 ((opW4.deploy P4 Direction.RIGHT).retreat.retreat)
    current_cost := W4.current_cost - (opW4.deploy_cost : ℚ) }

theorem c6_deploy_retreat_restores_witness :
    W4.deploy_operator 0 P4 Direction.RIGHT = some (OperationResult.success_result, ST4a) ∧
    ST4a.retreat_operator 0 = some (true, W4r) ∧
    W4r.deployed_operators = W4.deployed_operators ∧
    W4r.tiles = W4.tiles ∧
    W4r.current_cost = W4.current_cost - (opW4.deploy_cost : ℚ) := by
  have hdep : W4.deploy_operator 0 P4 Direction.RIGHT =
      some (OperationResult.success_result, ST4a) :=
    deploy_operator_success W4 0 opW4 P4 Direction.RIGHT 0 tileM4 rfl rfl (by decide)
      (by norm_num [W4, opW4]) (by decide)
  have hret : ST4a.retreat_operator 0 = some (true, W4r) :=
    retreat_after_deploy W4 0 opW4 P4 Direction.RIGHT 0 tileM4 rfl rfl rfl rfl (by decide)
  have h := c6_deploy_retreat_restores W4 0 opW4 P4 Direction.RIGHT
    OperationResult.success_result ST4a W4r true rfl (by decide) hdep rfl hret
  exact ⟨hdep, hret, h.2.1, h.2.2.1, h.2.2.2⟩

def opC6 : Operator :=
  { entity_id := "char_a", name := "A", position := PosVal.pcoord { row := 0, col := 0 },
    is_deployed := true, deploy_cost := 5 }

def opC6b : Operator := { entity_id := "char_b", name := "B" }

def tileA6 : Tile := { buildable_type := BuildableType.ALL }

def P6 : Position := { row := 0, col := 1 }

/-- The double-deploy world: operator 0 is already deployed on tile 0 (an
ALL tile, so a second deploy elsewhere passes every check) and operator 1
was deployed after it, so the roster is `[0, 1]`. -/
def W6 : GameMap :=
  { rows := 1, cols := 2, map_layout := [[0, 1]],
    tiles := [{ buildable_type := BuildableType.ALL, deployed_operator := some 0 }, tileA6],
    current_cost := 100, op_heap := [opC6, opC6b], deployed_operators := [0, 1] }

def ST6a : GameMap := W6.deploy_success_state 0 opC6 P6 Direction.RIGHT 1 tileA6

/-- C6 (counterexample): deploying operator 0 a second time succeeds (the
source never checks `is_deployed`), the immediately following retreat
returns true, but the deployed roster afterwards is `[1, 0]`, not the
pre-deploy `[0, 1]`: the roster is not restored to exactly its pre-deploy
value. -/
theorem c6_roster_counterexample :
    W6.deploy_operator 0 P6 Direction.RIGHT = some (OperationResult.success_result, ST6a) ∧
    (ST6a.retreat_operator 0).map (fun r => (r.1, r.2.deployed_operators)) =
      some (true, [1, 0]) ∧
    W6.deployed_operators = [0, 1] ∧
    ([1, 0] : List ℕ) ≠ [0, 1] := by
  refine ⟨deploy_operator_success W6 0 opC6 P6 Direction.RIGHT 1 tileA6 rfl rfl (by decide)
    (by norm_num [W6, opC6]) (by decide), ?_, rfl, by decide⟩
  rfl

theorem deploy_operator_incompatible (st : GameMap) (u : ℕ) (op : Operator) (p : Position)
    (d : Direction) (i : ℕ) (t : Tile)
    (hop : st.op_heap[u]? = some op)
    (hgt : st.get_tile_at p = some (i, t))
    (hocc : t.deployed_operator.isSome = false)
    (hcompat : GameMap.check_operator_tile_compatibility op t = false) :
    st.deploy_operator u p d =
      some (OperationResult.failure_result
        ("干员类型不匹配: " ++ op.name ++ "(" ++ op.position.pyStr ++ ") 无法部署到 " ++
          t.buildable_type.value ++ " 位置"), st) := by
  have hv := get_tile_at_valid st p i t hgt
  unfold GameMap.deploy_operator
  rw [hop]
  dsimp only
  rw [if_neg (by simp [hv]), hgt]
  dsimp only
  rw [if_neg (by simp [hocc]), if_pos (by simp [hcompat])]

def opC8 : Operator :=
  { entity_id := "char_m", name := "M", position := PosVal.pstr "MELEE", deploy_cost := 5,
    skills := [{ skill_id := "skchr_m_1" }] }

def tileM8 : Tile := { buildable_type := BuildableType.MELEE }

def W8 : GameMap :=
  { rows := 1, cols := 1, map_layout := [[0]], tiles := [tileM8],
    current_cost := 100, op_heap := [opC8] }

def ST8a : GameMap := W8.deploy_success_state 0 opC8 P4 Direction.RIGHT 0 tileM8

def ST8b : GameMap :=
  { W8 with
    op_heap := W8.op_heap.set 0 ((opC8.deploy P4 Direction.RIGHT).retreat.retreat)
    current_cost := W8.current_cost - (opC8.deploy_cost : ℚ) }

/-- C8 (code bug): a melee operator deploys onto a MELEE tile, retreats
(position cleared, blocking links released, skills untouched), and then —
with ample cost, an empty roster and the very same melee-buildable tile —
the redeploy FAILS with a type-mismatch reason, because `deploy`
overwrote the operator's placement-class attribute `position` with the
grid coordinate and `retreat` set it to `None`, so the compatibility
check `position == "MELEE"` can never hold again. -/
theorem c8_position_clobber_bug :
    W8.deploy_operator 0 P4 Direction.RIGHT = some (OperationResult.success_result, ST8a) ∧
    ST8a.retreat_operator 0 = some (true, ST8b) ∧
    (ST8b.op_heap[0]?).map (fun o => (o.position, o.blocked_enemies, o.is_deployed, o.skills)) =
      some (PosVal.pnone, [], false, opC8.skills) ∧
    ST8b.current_cost = 95 ∧
    ST8b.deployed_operators.length < ST8b.character_limit ∧
    ST8b.tiles = [tileM8] ∧
    ST8b.deploy_operator 0 P4 Direction.RIGHT =
      some (OperationResult.failure_result
        ("干员类型不匹配: " ++ ((opC8.deploy P4 Direction.RIGHT).retreat.retreat).name ++ "(" ++
          ((opC8.deploy P4 Direction.RIGHT).retreat.retreat).position.pyStr ++ ") 无法部署到 " ++
          tileM8.buildable_type.value ++ " 位置"), ST8b) := by
  refine ⟨deploy_operator_success W8 0 opC8 P4 Direction.RIGHT 0 tileM8 rfl rfl (by decide)
      (by norm_num [W8, opC8]) (by decide),
    retreat_after_deploy W8 0 opC8 P4 Direction.RIGHT 0 tileM8 rfl rfl rfl rfl (by decide),
    rfl, by norm_num [ST8b, W8, opC8], by decide, rfl, ?_⟩
  exact deploy_operator_incompatible ST8b 0 ((opC8.deploy P4 Direction.RIGHT).retreat.retreat)
    P4 Direction.RIGHT 0 tileM8 rfl rfl rfl rfl

/-! ## Frame lemmas for the update tick (C1, C2, C7) -/

theorem optFold_frame {σ α β : Type} (f : σ → α → Option σ) (g : σ → β)
    (hf : ∀ s a s', f s a = some s' → g s' = g s) :
    ∀ (l : List α) (s s' : σ), optFold f s l = some s' → g s' = g s := by
  intro l
  induction l with
  | nil =>
    intro s s' h
    simp only [optFold, Option.some.injEq] at h
    rw [h]
  | cons a l ih =>
    intro s s' h
    simp only [optFold] at h
    rcases hfa : f s a with _ | s₁
    · rw [hfa] at h; exact absurd h (by simp)
    · rw [hfa] at h
      rw [ih s₁ s' h, hf s a s₁ hfa]

/-- Everything the operator-update phase leaves untouched. -/
def opPhaseView (st : GameMap) :
    Bool × Bool × ℤ × List ℕ × List Wave × ℕ × List Enemy × ℚ :=
  (st.is_victory, st.is_defeat, st.current_life_points, st.active_enemies,
   st.waves, st.current_wave_index, st.enemy_heap, st.current_cost)

theorem remove_operator_at_frame (st : GameMap) (i : ℕ) (t : Tile) (st' : GameMap)
    (h : st.remove_operator_at i t = some st') : opPhaseView st' = opPhaseView st ∧
      st'.deployed_operators = st.deployed_operators := by
  unfold GameMap.remove_operator_at at h
  split at h
  · simp only [Option.some.injEq] at h
    rw [← h]
    exact ⟨rfl, rfl⟩
  · split at h
    · exact absurd h (by simp)
    · simp only [Option.some.injEq] at h
      rw [← h]
      exact ⟨rfl, rfl⟩

theorem retreat_operator_frame (st : GameMap) (u : ℕ) (b : Bool) (st' : GameMap)
    (h : st.retreat_operator u = some (b, st')) : opPhaseView st' = opPhaseView st := by
  unfold GameMap.retreat_operator at h
  rcases hop : st.op_heap[u]? with _ | op
  · rw [hop] at h; exact absurd h (by simp)
  · rw [hop] at h
    dsimp only at h
    split at h
    · simp only [Option.some.injEq, Prod.mk.injEq] at h
      rw [← h.2]
    · rcases hs1 : (match op.position with
        | PosVal.pcoord p =>
          match st.get_tile_at p with
          | some (i, t) => st.remove_operator_at i t
          | Option.none => some st
        | PosVal.pstr s => if s = "" then some st else Option.none
        | PosVal.pnone => some st) with _ | st₁
      · rw [hs1] at h; exact absurd h (by simp)
      · rw [hs1] at h
        dsimp only at h
        have hfr1 : opPhaseView st₁ = opPhaseView st := by
          rcases hp : op.position with s | p | _
          · rw [hp] at hs1
            dsimp only at hs1
            split at hs1
            · simp only [Option.some.injEq] at hs1; rw [← hs1]
            · exact absurd hs1 (by simp)
          · rw [hp] at hs1
            dsimp only at hs1
            rcases hgt : st.get_tile_at p with _ | ⟨i, t⟩
            · rw [hgt] at hs1
              simp only [Option.some.injEq] at hs1
              rw [← hs1]
            · rw [hgt] at hs1
              exact (remove_operator_at_frame st i t st₁ hs1).1
          · rw [hp] at hs1
            simp only [Option.some.injEq] at hs1
            rw [← hs1]
        rcases hop1 : st₁.op_heap[u]? with _ | op₁
        · rw [hop1] at h; exact absurd h (by simp)
        · rw [hop1] at h
          dsimp only at h
          simp only [Option.some.injEq, Prod.mk.injEq] at h
          rw [← h.2]
          exact hfr1

theorem operator_step_frame (delta_time : ℚ) (st : GameMap) (u : ℕ) (st' : GameMap)
    (h : GameMap.operator_step delta_time st u = some st') :
    opPhaseView st' = opPhaseView st := by
  unfold GameMap.operator_step at h
  rcases hop : st.op_heap[u]? with _ | op
  · rw [hop] at h; exact absurd h (by simp)
  · rw [hop] at h
    dsimp only at h
    rcases hup : op.update delta_time with _ | op₁
    · rw [hup] at h; exact absurd h (by simp)
    · rw [hup] at h
      dsimp only at h
      split at h
      · simp only [Option.some.injEq] at h
        rw [← h]
        rfl
      · rcases hr : GameMap.retreat_operator
            { st with op_heap := st.op_heap.set u op₁ } u with _ | ⟨b, st₂⟩
        · rw [hr] at h; exact absurd h (by simp)
        · rw [hr] at h
          dsimp only at h
          simp only [Option.some.injEq] at h
          rw [← h]
          exact retreat_operator_frame { st with op_heap := st.op_heap.set u op₁ } u b st₂ hr

theorem update_operators_frame (st : GameMap) (delta_time : ℚ) (st' : GameMap)
    (h : st.update_operators delta_time = some st') : opPhaseView st' = opPhaseView st :=
  optFold_frame _ opPhaseView (fun s a s' hs => operator_step_frame delta_time s a s' hs)
    st.deployed_operators st st' h

/-- Everything the enemy-update phase leaves untouched. -/
def enemyPhaseView (st : GameMap) : Bool × List Wave × ℕ × List ℕ × List Operator × List Tile × ℚ :=
  (st.is_victory, st.waves, st.current_wave_index, st.deployed_operators,
   st.op_heap, st.tiles, st.current_cost)

theorem enemy_step_frame (delta_time : ℚ) (st : GameMap) (u : ℕ) (st' : GameMap)
    (h : GameMap.enemy_step delta_time st u = some st') :
    enemyPhaseView st' = enemyPhaseView st := by
  unfold GameMap.enemy_step at h
  rcases he : st.enemy_heap[u]? with _ | e
  · rw [he] at h; exact absurd h (by simp)
  · rw [he] at h
    dsimp only at h
    split at h
    · split at h
      all_goals (simp only [Option.some.injEq] at h; rw [← h]; rfl)
    · split at h
      all_goals (simp only [Option.some.injEq] at h; rw [← h]; rfl)

theorem update_enemies_frame (st : GameMap) (delta_time : ℚ) (st' : GameMap)
    (h : st.update_enemies delta_time = some st') : enemyPhaseView st' = enemyPhaseView st :=
  optFold_frame _ enemyPhaseView (fun s a s' hs => enemy_step_frame delta_time s a s' hs)
    st.active_enemies st st' h

/-- Everything the combat phase leaves untouched. -/
def combatView (st : GameMap) : Bool × Bool × ℤ × List ℕ × List Wave × ℕ × List ℕ × List Tile × ℚ :=
  (st.is_victory, st.is_defeat, st.current_life_points, st.active_enemies,
   st.waves, st.current_wave_index, st.deployed_operators, st.tiles, st.current_cost)

theorem operator_attack_step_frame (st : GameMap) (u : ℕ) (st' : GameMap)
    (h : GameMap.operator_attack_step st u = some st') : combatView st' = combatView st := by
  unfold GameMap.operator_attack_step at h
  repeat' split at h
  all_goals
    first
    | exact Option.noConfusion h
    | (simp only [Option.some.injEq] at h; subst h; rfl)

theorem enemy_attack_step_frame (st : GameMap) (u : ℕ) (st' : GameMap)
    (h : GameMap.enemy_attack_step st u = some st') : combatView st' = combatView st := by
  unfold GameMap.enemy_attack_step at h
  repeat' split at h
  all_goals
    first
    | exact Option.noConfusion h
    | (simp only [Option.some.injEq] at h; subst h; rfl)

theorem process_combat_frame (st : GameMap) (st' : GameMap)
    (h : st.process_combat = some st') : combatView st' = combatView st := by
  unfold GameMap.process_combat at h
  rcases h1 : optFold GameMap.operator_attack_step st st.deployed_operators with _ | st₁
  · rw [h1] at h; exact absurd h (by simp)
  · rw [h1] at h
    dsimp only at h
    have f1 : combatView st₁ = combatView st :=
      optFold_frame _ combatView (fun s a s' hs => operator_attack_step_frame s a s' hs) _ st st₁ h1
    have f2 : combatView st' = combatView st₁ :=
      optFold_frame _ combatView (fun s a s' hs => enemy_attack_step_frame s a s' hs) _ st₁ st' h
    rw [f2, f1]

theorem block_step_frame (st : GameMap) (u : ℕ) (st' : GameMap)
    (h : GameMap.block_step st u = some st') : combatView st' = combatView st := by
  unfold GameMap.block_step at h
  repeat' split at h
  all_goals
    first
    | exact Option.noConfusion h
    | (simp only [Option.some.injEq] at h; subst h; rfl)

theorem purge_step_frame (st : GameMap) (u : ℕ) (st' : GameMap)
    (h : GameMap.purge_step st u = some st') : combatView st' = combatView st := by
  unfold GameMap.purge_step at h
  repeat' split at h
  all_goals
    first
    | exact Option.noConfusion h
    | (simp only [Option.some.injEq] at h; subst h; rfl)

theorem release_step_frame (st : GameMap) (u : ℕ) (st' : GameMap)
    (h : GameMap.release_step st u = some st') : combatView st' = combatView st := by
  unfold GameMap.release_step at h
  repeat' split at h
  all_goals
    first
    | exact Option.noConfusion h
    | (simp only [Option.some.injEq] at h; subst h; rfl)

theorem process_blocking_frame (st : GameMap) (st' : GameMap)
    (h : st.process_blocking = some st') : combatView st' = combatView st := by
  unfold GameMap.process_blocking at h
  rcases h1 : optFold GameMap.block_step st st.active_enemies with _ | st₁
  · rw [h1] at h; exact absurd h (by simp)
  · rw [h1] at h
    dsimp only at h
    rcases h2 : optFold GameMap.purge_step st₁ st₁.deployed_operators with _ | st₂
    · rw [h2] at h; exact absurd h (by simp)
    · rw [h2] at h
      dsimp only at h
      have f1 : combatView st₁ = combatView st :=
        optFold_frame _ combatView (fun s a s' hs => block_step_frame s a s' hs) _ st st₁ h1
      have f2 : combatView st₂ = combatView st₁ :=
        optFold_frame _ combatView (fun s a s' hs => purge_step_frame s a s' hs) _ st₁ st₂ h2
      have f3 : combatView st' = combatView st₂ :=
        optFold_frame _ combatView (fun s a s' hs => release_step_frame s a s' hs) _ st₂ st' h
      rw [f3, f2, f1]

/-- Everything the wave phase leaves untouched. -/
def wavesView (st : GameMap) : Bool × Bool × ℤ × List ℕ × List Operator × List Tile × ℚ :=
  (st.is_victory, st.is_defeat, st.current_life_points, st.deployed_operators,
   st.op_heap, st.tiles, st.current_cost)

theorem spawn_enemy_frame (st : GameMap) (k : String) (r : ℕ) :
    wavesView (st.spawn_enemy k r).2 = wavesView st := by
  unfold GameMap.spawn_enemy
  split <;> rfl

theorem action_step_frame (delta_time : ℚ) (l : List WaveAction) (st : GameMap) (a : WaveAction) :
    wavesView (GameMap.action_step delta_time (l, st) a).2 = wavesView st := by
  unfold GameMap.action_step
  dsimp only
  split
  · rfl
  · split
    · split
      · split
        · exact spawn_enemy_frame st _ _
        · rfl
      · rfl
    · rfl

theorem actions_foldl_frame (delta_time : ℚ) :
    ∀ (acts : List WaveAction) (pl : List WaveAction) (pst : GameMap),
      wavesView (acts.foldl (GameMap.action_step delta_time) (pl, pst)).2 = wavesView pst := by
  intro acts
  induction acts with
  | nil => intro pl pst; rfl
  | cons a acts ih =>
    intro pl pst
    rw [List.foldl_cons]
    have hstep := action_step_frame delta_time pl pst a
    rcases hs : GameMap.action_step delta_time (pl, pst) a with ⟨l₁, st₁⟩
    rw [hs] at hstep
    rw [ih l₁ st₁, hstep]

theorem fragment_step_frame (delta_time wave_time : ℚ) (l : List WaveFragment) (st : GameMap)
    (f : WaveFragment) :
    wavesView (GameMap.fragment_step delta_time wave_time (l, st) f).2 = wavesView st := by
  unfold GameMap.fragment_step
  dsimp only
  split <;> split
  all_goals
    first
    | exact actions_foldl_frame delta_time _ _ _
    | rfl

theorem fragments_foldl_frame (delta_time wave_time : ℚ) :
    ∀ (frs : List WaveFragment) (pl : List WaveFragment) (pst : GameMap),
      wavesView (frs.foldl (GameMap.fragment_step delta_time wave_time) (pl, pst)).2 =
        wavesView pst := by
  intro frs
  induction frs with
  | nil => intro pl pst; rfl
  | cons f frs ih =>
    intro pl pst
    rw [List.foldl_cons]
    have hstep := fragment_step_frame delta_time wave_time pl pst f
    rcases hs : GameMap.fragment_step delta_time wave_time (pl, pst) f with ⟨l₁, st₁⟩
    rw [hs] at hstep
    rw [ih l₁ st₁, hstep]

theorem update_waves_frame (st : GameMap) (delta_time : ℚ) :
    wavesView (st.update_waves delta_time) = wavesView st := by
  unfold GameMap.update_waves
  rcases hw : st.waves[st.current_wave_index]? with _ | w
  · rfl
  · dsimp only
    have hf := fragments_foldl_frame delta_time (w.current_time + delta_time) w.fragments [] st
    split
    · exact hf
    · exact hf

/-- The cost-regeneration step at the top of `GameMap.update`. -/
def GameMap.tick_start (st : GameMap) (delta_time : ℚ) : GameMap :=
  { st with
    game_time := st.game_time + delta_time
    current_cost := min st.max_cost (st.current_cost + delta_time / st.cost_increase_time) }

theorem update_phases (st : GameMap) (delta_time : ℚ) (st' : GameMap)
    (h : st.update delta_time = some st') :
    ∃ st₂ st₃ st₄ st₅,
      (st.tick_start delta_time).update_operators delta_time = some st₂ ∧
      st₂.update_enemies delta_time = some st₃ ∧
      st₃.process_combat = some st₄ ∧
      st₄.process_blocking = some st₅ ∧
      st' = (if (st₅.update_waves delta_time).victory_cond then
        { st₅.update_waves delta_time with is_victory := true }
      else st₅.update_waves delta_time) := by
  unfold GameMap.update at h
  by_cases hc : st.cost_increase_time = 0
  · rw [if_pos hc] at h
    exact absurd h (by simp)
  · rw [if_neg hc] at h
    dsimp only at h
    rcases h2 : GameMap.update_operators (st.tick_start delta_time) delta_time with _ | st₂
    · rw [show GameMap.update_operators
        { st with
          game_time := st.game_time + delta_time
          current_cost := min st.max_cost (st.current_cost + delta_time / st.cost_increase_time) }
          delta_time = Option.none from h2] at h
      exact absurd h (by simp)
    · rw [show GameMap.update_operators
        { st with
          game_time := st.game_time + delta_time
          current_cost := min st.max_cost (st.current_cost + delta_time / st.cost_increase_time) }
          delta_time = some st₂ from h2] at h
      dsimp only at h
      rcases h3 : st₂.update_enemies delta_time with _ | st₃
      · rw [h3] at h; exact absurd h (by simp)
      · rw [h3] at h
        dsimp only at h
        rcases h4 : st₃.process_combat with _ | st₄
        · rw [h4] at h; exact absurd h (by simp)
        · rw [h4] at h
          dsimp only at h
          rcases h5 : st₄.process_blocking with _ | st₅
          · rw [h5] at h; exact absurd h (by simp)
          · rw [h5] at h
            dsimp only at h
            simp only [Option.some.injEq] at h
            exact ⟨st₂, st₃, st₄, st₅, rfl, h3, h4, h5, h.symm⟩

/-- C1: when a tick starts with the victory flag clear, after
`GameMap.update` returns the victory flag is set iff, evaluated on the
end-of-tick state, all waves are completed, no enemies remain active,
life points are positive and the defeat flag is clear. -/
theorem c1_victory_iff (st : GameMap) (delta_time : ℚ) (st' : GameMap)
    (hv : st.is_victory = false)
    (h : st.update delta_time = some st') :
    st'.is_victory = true ↔
      (st'.waves.length ≤ st'.current_wave_index ∧ st'.active_enemies = [] ∧
       0 < st'.current_life_points ∧ st'.is_defeat = false) := by
  obtain ⟨st₂, st₃, st₄, st₅, h2, h3, h4, h5, hfin⟩ := update_phases st delta_time st' h
  have v2 : st₂.is_victory = false := by
    have e := update_operators_frame _ delta_time st₂ h2
    have := congrArg (fun x => x.1) e
    simpa using this.trans hv
  have v3 : st₃.is_victory = false := by
    have e := update_enemies_frame _ delta_time st₃ h3
    have := congrArg (fun x => x.1) e
    simpa using this.trans v2
  have v4 : st₄.is_victory = false := by
    have e := process_combat_frame _ st₄ h4
    have := congrArg (fun x => x.1) e
    simpa using this.trans v3
  have v5 : st₅.is_victory = false := by
    have e := process_blocking_frame _ st₅ h5
    have := congrArg (fun x => x.1) e
    simpa using this.trans v4
  have v6 : (st₅.update_waves delta_time).is_victory = false := by
    have e := update_waves_frame st₅ delta_time
    have := congrArg (fun x => x.1) e
    simpa using this.trans v5
  by_cases hvc : (st₅.update_waves delta_time).victory_cond = true
  · rw [if_pos hvc] at hfin
    subst hfin
    simp only [GameMap.victory_cond, Bool.and_eq_true, decide_eq_true_eq] at hvc
    constructor
    · intro _
      exact ⟨hvc.1.1.1, hvc.1.1.2, hvc.1.2, hvc.2⟩
    · intro _
      rfl
  · rw [if_neg hvc] at hfin
    subst hfin
    constructor
    · intro hL
      exact absurd hL (by simp [v6])
    · intro hR
      exact absurd (by
        simp only [GameMap.victory_cond, Bool.and_eq_true, decide_eq_true_eq]
        exact ⟨⟨⟨hR.1, hR.2.1⟩, hR.2.2.1⟩, hR.2.2.2⟩) hvc

def W0 : GameMap := {}

def W0v : GameMap :=
  { W0 with
    game_time := W0.game_time + 1
    current_cost := min W0.max_cost (W0.current_cost + 1 / W0.cost_increase_time)
    is_victory := true }

theorem W0_update : W0.update 1 = some W0v := by rfl

theorem c1_victory_iff_witness :
    W0.is_victory = false ∧ W0.update 1 = some W0v ∧ W0v.is_victory = true := by
  refine ⟨rfl, W0_update, ?_⟩
  exact (c1_victory_iff W0 1 W0v rfl W0_update).mpr ⟨by decide, rfl, by decide, rfl⟩

theorem enemy_step_defeat_iff (delta_time : ℚ) (st : GameMap) (u : ℕ) (st' : GameMap)
    (h : GameMap.enemy_step delta_time st u = some st')
    (hP : st.is_defeat = true ↔ st.current_life_points ≤ 0) :
    st'.is_defeat = true ↔ st'.current_life_points ≤ 0 := by
  unfold GameMap.enemy_step at h
  rcases he : st.enemy_heap[u]? with _ | e
  · rw [he] at h; exact absurd h (by simp)
  · rw [he] at h
    dsimp only at h
    split at h
    · split at h <;> rename_i hle <;>
        (simp only [Option.some.injEq] at h; subst h; dsimp only at hle ⊢)
      · simpa using hle
      · push_neg at hle
        constructor
        · intro hd
          have := hP.mp hd
          omega
        · intro hc
          omega
    · split at h <;> (simp only [Option.some.injEq] at h; subst h; exact hP)

theorem enemy_step_defeat_mono (delta_time : ℚ) (st : GameMap) (u : ℕ) (st' : GameMap)
    (h : GameMap.enemy_step delta_time st u = some st')
    (hd : st.is_defeat = true) : st'.is_defeat = true := by
  unfold GameMap.enemy_step at h
  rcases he : st.enemy_heap[u]? with _ | e
  · rw [he] at h; exact absurd h (by simp)
  · rw [he] at h
    dsimp only at h
    split at h
    · split at h <;> (simp only [Option.some.injEq] at h; subst h)
      · rfl
      · exact hd
    · split at h <;> (simp only [Option.some.injEq] at h; subst h) <;> exact hd

theorem update_defeat_iff (st : GameMap) (delta_time : ℚ) (st' : GameMap)
    (hP : st.is_defeat = true ↔ st.current_life_points ≤ 0)
    (h : st.update delta_time = some st') :
    st'.is_defeat = true ↔ st'.current_life_points ≤ 0 := by
  obtain ⟨st₂, st₃, st₄, st₅, h2, h3, h4, h5, hfin⟩ := update_phases st delta_time st' h
  have p2 : st₂.is_defeat = true ↔ st₂.current_life_points ≤ 0 := by
    have e := update_operators_frame _ delta_time st₂ h2
    have hd := congrArg (fun x => x.2.1) e
    have hl := congrArg (fun x => x.2.2.1) e
    simp only [opPhaseView] at hd hl
    rw [hd, hl]
    exact hP
  have p3 : st₃.is_defeat = true ↔ st₃.current_life_points ≤ 0 :=
    optFold_eq_some_pres _ (fun s => s.is_defeat = true ↔ s.current_life_points ≤ 0)
      (fun s a s' hs hp => enemy_step_defeat_iff delta_time s a s' hs hp)
      st₂.active_enemies st₂ st₃ h3 p2
  have p4 : st₄.is_defeat = true ↔ st₄.current_life_points ≤ 0 := by
    have e := process_combat_frame _ st₄ h4
    have hd := congrArg (fun x => x.2.1) e
    have hl := congrArg (fun x => x.2.2.1) e
    simp only [combatView] at hd hl
    rw [hd, hl]
    exact p3
  have p5 : st₅.is_defeat = true ↔ st₅.current_life_points ≤ 0 := by
    have e := process_blocking_frame _ st₅ h5
    have hd := congrArg (fun x => x.2.1) e
    have hl := congrArg (fun x => x.2.2.1) e
    simp only [combatView] at hd hl
    rw [hd, hl]
    exact p4
  have p6 : (st₅.update_waves delta_time).is_defeat = true ↔
      (st₅.update_waves delta_time).current_life_points ≤ 0 := by
    have e := update_waves_frame st₅ delta_time
    have hd := congrArg (fun x => x.2.1) e
    have hl := congrArg (fun x => x.2.2.1) e
    simp only [wavesView] at hd hl
    rw [hd, hl]
    exact p5
  split at hfin <;> subst hfin
  · exact p6
  · exact p6

theorem update_defeat_terminal (st : GameMap) (delta_time : ℚ) (st' : GameMap)
    (hd : st.is_defeat = true) (hv : st.is_victory = false)
    (h : st.update delta_time = some st') :
    st'.is_defeat = true ∧ st'.is_victory = false := by
  obtain ⟨st₂, st₃, st₄, st₅, h2, h3, h4, h5, hfin⟩ := update_phases st delta_time st' h
  have e2 := update_operators_frame _ delta_time st₂ h2
  have d2 : st₂.is_defeat = true := by
    have := congrArg (fun x => x.2.1) e2
    simpa [opPhaseView] using this.trans hd
  have v2 : st₂.is_victory = false := by
    have := congrArg (fun x => x.1) e2
    simpa [opPhaseView] using this.trans hv
  have d3 : st₃.is_defeat = true :=
    optFold_eq_some_pres _ (fun s => s.is_defeat = true)
      (fun s a s' hs hp => enemy_step_defeat_mono delta_time s a s' hs hp)
      st₂.active_enemies st₂ st₃ h3 d2
  have v3 : st₃.is_victory = false := by
    have := congrArg (fun x => x.1) (update_enemies_frame _ delta_time st₃ h3)
    simpa [enemyPhaseView] using this.trans v2
  have e4 := process_combat_frame _ st₄ h4
  have d4 : st₄.is_defeat = true := by
    have := congrArg (fun x => x.2.1) e4
    simpa [combatView] using this.trans d3
  have v4 : st₄.is_victory = false := by
    have := congrArg (fun x => x.1) e4
    simpa [combatView] using this.trans v3
  have e5 := process_blocking_frame _ st₅ h5
  have d5 : st₅.is_defeat = true := by
    have := congrArg (fun x => x.2.1) e5
    simpa [combatView] using this.trans d4
  have v5 : st₅.is_victory = false := by
    have := congrArg (fun x => x.1) e5
    simpa [combatView] using this.trans v4
  have e6 := update_waves_frame st₅ delta_time
  have d6 : (st₅.update_waves delta_time).is_defeat = true := by
    have := congrArg (fun x => x.2.1) e6
    simpa [wavesView] using this.trans d5
  have v6 : (st₅.update_waves delta_time).is_victory = false := by
    have := congrArg (fun x => x.1) e6
    simpa [wavesView] using this.trans v5
  have hvc : (st₅.update_waves delta_time).victory_cond = false := by
    unfold GameMap.victory_cond
    rw [d6]
    simp
  rw [hvc] at hfin
  rw [if_neg (by simp)] at hfin
  subst hfin
  exact ⟨d6, v6⟩

/-- C2: (1) starting from a live, non-defeated state, after a tick the
defeat flag is set iff life points have reached 0 or below — life changes
only in the per-enemy goal-arrival step, which (2) decrements life by
exactly 1 for each enemy whose post-update reached-goal flag is set,
removes that enemy from the active roster, and raises the defeat flag as
soon as life is ≤ 0; and (3) defeat is terminal: once set it persists and
victory is never set on that tick or any later tick. -/
theorem c2_defeat_first_tick_terminal :
    (∀ (st : GameMap) (delta_time : ℚ) (st' : GameMap),
      st.is_defeat = false → 0 < st.current_life_points →
      st.update delta_time = some st' →
      (st'.is_defeat = true ↔ st'.current_life_points ≤ 0)) ∧
    (∀ (delta_time : ℚ) (st : GameMap) (u : ℕ) (st' : GameMap) (e : Enemy),
      st.enemy_heap[u]? = some e →
      GameMap.enemy_step delta_time st u = some st' →
      ((e.update delta_time).has_reached_goal = true →
        st'.current_life_points = st.current_life_points - 1 ∧
        st'.active_enemies = st.active_enemies.erase u ∧
        (st'.current_life_points ≤ 0 → st'.is_defeat = true)) ∧
      ((e.update delta_time).has_reached_goal = false →
        st'.current_life_points = st.current_life_points ∧
        st'.is_defeat = st.is_defeat)) ∧
    (∀ (st : GameMap) (ds : List ℚ) (st' : GameMap),
      st.is_defeat = true → st.is_victory = false →
      GameMap.updateIter st ds = some st' →
      st'.is_defeat = true ∧ st'.is_victory = false) := by
  refine ⟨?_, ?_, ?_⟩
  · intro st delta_time st' hd hl h
    exact update_defeat_iff st delta_time st'
      (by rw [hd]; exact ⟨fun hc => absurd hc (by simp), fun hc => absurd hl (by omega)⟩) h
  · intro delta_time st u st' e he hstep
    unfold GameMap.enemy_step at hstep
    rw [he] at hstep
    dsimp only at hstep
    split at hstep <;> rename_i hreach
    · split at hstep <;> rename_i hle <;>
        (simp only [Option.some.injEq] at hstep; subst hstep)
      · exact ⟨fun _ => ⟨rfl, rfl, fun _ => rfl⟩,
          fun hn => absurd hreach (by rw [hn]; simp)⟩
      · exact ⟨fun _ => ⟨rfl, rfl, fun hc => absurd hc hle⟩,
          fun hn => absurd hreach (by rw [hn]; simp)⟩
    · split at hstep <;>
        (simp only [Option.some.injEq] at hstep; subst hstep)
      · exact ⟨fun ht => absurd hreach (by rw [ht]; simp),
          fun _ => ⟨rfl, rfl⟩⟩
      · exact ⟨fun ht => absurd hreach (by rw [ht]; simp),
          fun _ => ⟨rfl, rfl⟩⟩
  · intro st ds
    induction ds generalizing st with
    | nil =>
      intro st' hd hv h
      simp only [GameMap.updateIter, Option.some.injEq] at h
      subst h
      exact ⟨hd, hv⟩
    | cons d ds ih =>
      intro st' hd hv h
      simp only [GameMap.updateIter] at h
      rcases h1 : st.update d with _ | st₁
      · rw [h1] at h; exact absurd h (by simp)
      · rw [h1] at h
        have hstep := update_defeat_terminal st d st₁ hd hv h1
        exact ih st₁ st' hstep.1 hstep.2 h

def enW : Enemy := { entity_id := "e", has_reached_goal := true }

def WE : GameMap := { active_enemies := [0], enemy_heap := [enW] }

def STE : GameMap :=
  { WE with
    enemy_heap := WE.enemy_heap.set 0 (enW.update 1)
    current_life_points := WE.current_life_points - 1
    active_enemies := WE.active_enemies.erase 0 }

def W0d : GameMap := { is_defeat := true }

def W0dv : GameMap :=
  { W0d with
    game_time := W0d.game_time + 1
    current_cost := min W0d.max_cost (W0d.current_cost + 1 / W0d.cost_increase_time) }

theorem c2_defeat_first_tick_terminal_witness :
    (W0v.is_defeat = true ↔ W0v.current_life_points ≤ 0) ∧
    (STE.current_life_points = WE.current_life_points - 1 ∧
     STE.active_enemies = WE.active_enemies.erase 0 ∧
     (STE.current_life_points ≤ 0 → STE.is_defeat = true)) ∧
    (W0dv.is_defeat = true ∧ W0dv.is_victory = false) := by
  obtain ⟨ha, hb, hc⟩ := c2_defeat_first_tick_terminal
  refine ⟨ha W0 1 W0v rfl (by decide) W0_update, ?_, ?_⟩
  · exact (hb 1 WE 0 STE enW rfl rfl).1 rfl
  · exact hc W0d [1] W0dv rfl rfl rfl

/-! ## C7: blocking-relation invariants -/

/-- Every operator's blocked-enemy list stays within its block capacity. -/
def GameMap.capOK (st : GameMap) : Prop :=
  ∀ (i : ℕ) (o : Operator), st.op_heap[i]? = some o → (o.blocked_enemies.length : ℤ) ≤ o.max_block_count

/-- Every enemy appears in at most one operator's blocked list, at most
once. -/
def GameMap.uniqOK (st : GameMap) : Prop :=
  (∀ (u i j : ℕ) (oi oj : Operator), st.op_heap[i]? = some oi → st.op_heap[j]? = some oj →
    u ∈ oi.blocked_enemies → u ∈ oj.blocked_enemies → i = j) ∧
  (∀ (i : ℕ) (o : Operator), st.op_heap[i]? = some o → o.blocked_enemies.Nodup)

/-- Every listed enemy exists, is flagged blocked and points back at its
blocker, except in the lists of dead still-rostered operators (the stale
entries the next tick's operator pass clears via auto-retreat). -/
def GameMap.ptrW (st : GameMap) : Prop :=
  ∀ (i : ℕ) (o : Operator), st.op_heap[i]? = some o → ∀ u, u ∈ o.blocked_enemies →
    (∃ e, st.enemy_heap[u]? = some e ∧ e.is_blocked = true ∧ e.blocked_by = some i) ∨
    (o.is_alive = false ∧ i ∈ st.deployed_operators)

/-- Strong pointer invariant (no stale entries): holds between the
operator pass and the release pass. -/
def GameMap.ptrS (st : GameMap) : Prop :=
  ∀ (i : ℕ) (o : Operator), st.op_heap[i]? = some o → ∀ u, u ∈ o.blocked_enemies →
    ∃ e, st.enemy_heap[u]? = some e ∧ e.is_blocked = true ∧ e.blocked_by = some i

/-- Operators outside the deployed roster hold no blocked enemies. -/
def GameMap.offClean (st : GameMap) : Prop :=
  ∀ (i : ℕ) (o : Operator), st.op_heap[i]? = some o → i ∉ st.deployed_operators → o.blocked_enemies = []

/-- Deploy bookkeeping: the roster, operator positions and tile occupancy
are the mutually inverse maps `deploy_operator` maintains. -/
def GameMap.wfDeploy (st : GameMap) : Prop :=
  st.deployed_operators.Nodup ∧
  (∀ u, u ∈ st.deployed_operators → ∃ (o : Operator), st.op_heap[u]? = some o ∧
    o.is_deployed = true ∧ ∃ p i t, o.position = PosVal.pcoord p ∧
    st.get_tile_at p = some (i, t) ∧ t.deployed_operator = some u) ∧
  (∀ (i : ℕ) (t : Tile), st.tiles[i]? = some t → ∀ ou, t.deployed_operator = some ou →
    ou ∈ st.deployed_operators ∧ ∃ (o : Operator), st.op_heap[ou]? = some o ∧
    ∃ p, o.position = PosVal.pcoord p ∧ st.get_tile_at p = some (i, t))

/-- C7's mutual-consistency property: a blocked active enemy's
back-reference is a live, still-deployed operator. -/
def GameMap.consistOK (st : GameMap) : Prop :=
  ∀ (u : ℕ) , u ∈ st.active_enemies → ∀ (e : Enemy), st.enemy_heap[u]? = some e →
    e.is_blocked = true → ∀ ub, e.blocked_by = some ub →
    ub ∈ st.deployed_operators ∧ ∃ (o : Operator), st.op_heap[ub]? = some o ∧ o.is_alive = true

/-- The inductive blocking invariant carried across tick boundaries. -/
def GameMap.blockInv (st : GameMap) : Prop :=
  st.capOK ∧ st.uniqOK ∧ st.ptrW ∧ st.offClean ∧ st.wfDeploy

theorem activate_skill_by_index_shape (o : Operator) (i : ℕ) (r : OperationResult)
    (o' : Operator) (h : o.activate_skill_by_index i = some (r, o')) :
    ∃ sk, o' = { o with skills := sk } := by
  unfold Operator.activate_skill_by_index at h
  split at h
  · simp only [Option.some.injEq, Prod.mk.injEq] at h
    exact ⟨o.skills, h.2.symm⟩
  · split at h
    · simp only [Option.some.injEq, Prod.mk.injEq] at h
      exact ⟨o.skills, h.2.symm⟩
    · split at h
      · exact absurd h (by simp)
      · split at h
        · exact absurd h (by simp)
        · split at h
          · split at h
            · exact absurd h (by simp)
            · rename_i skill₁ heq
              split at h <;>
                (simp only [Option.some.injEq, Prod.mk.injEq] at h;
                 exact ⟨_, h.2.symm⟩)
          · split at h
            · exact absurd h (by simp)
            · simp only [Option.some.injEq, Prod.mk.injEq] at h
              exact ⟨o.skills, h.2.symm⟩

theorem update_skill_step_shape (delta_time : ℚ) (o : Operator) (i : ℕ) (o' : Operator)
    (h : Operator.update_skill_step delta_time o i = some o') :
    ∃ sk, o' = { o with skills := sk } := by
  unfold Operator.update_skill_step at h
  split at h
  · exact absurd h (by simp)
  · split at h
    · exact absurd h (by simp)
    · split at h
      · exact absurd h (by simp)
      · split at h
        · exact absurd h (by simp)
        · split at h
          · dsimp only at h
            split at h
            · exact absurd h (by simp)
            · rename_i res heq
              obtain ⟨r₁, o₂⟩ := res
              simp only [Option.some.injEq] at h
              obtain ⟨sk, hsk⟩ := activate_skill_by_index_shape _ _ _ _ heq
              exact ⟨sk, by rw [← h, hsk]⟩
          · dsimp only at h
            simp only [Option.some.injEq] at h
            exact ⟨_, h.symm⟩

theorem optFold_skill_shape (delta_time : ℚ) :
    ∀ (l : List ℕ) (o o' : Operator),
      optFold (Operator.update_skill_step delta_time) o l = some o' →
      ∃ sk, o' = { o with skills := sk } := by
  intro l
  induction l with
  | nil =>
    intro o o' h
    simp only [optFold, Option.some.injEq] at h
    exact ⟨o.skills, h.symm⟩
  | cons a l ih =>
    intro o o' h
    simp only [optFold] at h
    split at h
    · exact absurd h (by simp)
    · rename_i o₁ heq
      obtain ⟨s1, hs1⟩ := update_skill_step_shape delta_time o a o₁ heq
      obtain ⟨s2, hs2⟩ := ih o₁ o' h
      subst hs1
      exact ⟨s2, hs2⟩

theorem opUpdate_pres (o : Operator) (delta_time : ℚ) (o' : Operator)
    (h : o.update delta_time = some o') :
    o'.is_alive = o.is_alive ∧ o'.blocked_enemies = o.blocked_enemies ∧
    o'.max_block_count = o.max_block_count ∧ o'.position = o.position ∧
    o'.is_deployed = o.is_deployed := by
  unfold Operator.update at h
  split at h
  · simp only [Option.some.injEq] at h
    subst h
    exact ⟨rfl, rfl, rfl, rfl, rfl⟩
  · dsimp only at h
    split at h
    · exact absurd h (by simp)
    · rename_i o₂ heq
      obtain ⟨sk, hsk⟩ := optFold_skill_shape delta_time _ _ o₂ heq
      simp only [Option.some.injEq] at h
      subst h
      subst hsk
      split <;> exact ⟨rfl, rfl, rfl, rfl, rfl⟩

theorem moveLoop_flags : ∀ (n : ℕ) (e : Enemy),
    (Enemy.moveLoop n e).is_blocked = e.is_blocked ∧
    (Enemy.moveLoop n e).blocked_by = e.blocked_by := by
  intro n
  induction n with
  | zero => intro e; exact ⟨rfl, rfl⟩
  | succ n ih =>
    intro e
    rw [Enemy.moveLoop]
    split
    · dsimp only
      split
      · exact ih _
      · exact ih _
    · exact ⟨rfl, rfl⟩

theorem enemyUpdate_flags (e : Enemy) (delta_time : ℚ) :
    (e.update delta_time).is_blocked = e.is_blocked ∧
    (e.update delta_time).blocked_by = e.blocked_by := by
  unfold Enemy.update Enemy.move
  dsimp only
  split <;> split <;>
    first
      | exact ⟨rfl, rfl⟩
      | exact moveLoop_flags _ _
      | (split <;> first | exact ⟨rfl, rfl⟩ | exact moveLoop_flags _ _)

theorem set_path_flags (e : Enemy) (l : List Position) :
    (e.set_path l).is_blocked = e.is_blocked ∧
    (e.set_path l).blocked_by = e.blocked_by := by
  unfold Enemy.set_path
  split <;> exact ⟨rfl, rfl⟩

theorem take_damage_entity_pos (e : GameEntity) (d : ℤ) (a : Bool) :
    (e.take_damage d a).2.position = e.position := by
  unfold GameEntity.take_damage
  dsimp only
  split <;> (split <;> rfl)

theorem get_tile_at_tiles (st : GameMap) (p : Position) (i : ℕ) (t : Tile)
    (h : st.get_tile_at p = some (i, t)) : st.tiles[i]? = some t := by
  unfold GameMap.get_tile_at at h
  split at h
  · exact absurd h (by simp)
  · split at h
    · simp only [Option.some.injEq, Prod.mk.injEq] at h
      rename_i j hj t' ht'
      rw [h.1, h.2] at ht'
      exact ht'
    · exact absurd h (by simp)

theorem get_tile_at_congr (st st' : GameMap) (p : Position)
    (hrows : st'.rows = st.rows) (hcols : st'.cols = st.cols)
    (hlay : st'.map_layout = st.map_layout) (hti : st'.tiles = st.tiles) :
    st'.get_tile_at p = st.get_tile_at p := by
  unfold GameMap.get_tile_at GameMap.tile_index_at GameMap.is_valid_position
  rw [hrows, hcols, hlay, hti]

theorem capOK_transport (st st' : GameMap)
    (hop : ∀ (i : ℕ) (o' : Operator), st'.op_heap[i]? = some o' →
      ∃ o, st.op_heap[i]? = some o ∧ o'.blocked_enemies = o.blocked_enemies ∧
        o'.max_block_count = o.max_block_count)
    (h : st.capOK) : st'.capOK := by
  intro i o' ho'
  obtain ⟨o, ho, hl, hm⟩ := hop i o' ho'
  rw [hl, hm]
  exact h i o ho

theorem uniqOK_transport (st st' : GameMap)
    (hop : ∀ (i : ℕ) (o' : Operator), st'.op_heap[i]? = some o' →
      ∃ o, st.op_heap[i]? = some o ∧ o'.blocked_enemies = o.blocked_enemies)
    (h : st.uniqOK) : st'.uniqOK := by
  constructor
  · intro u i j oi' oj' hi hj hui huj
    obtain ⟨oi, hoi, hli⟩ := hop i oi' hi
    obtain ⟨oj, hoj, hlj⟩ := hop j oj' hj
    exact h.1 u i j oi oj hoi hoj (hli ▸ hui) (hlj ▸ huj)
  · intro i o' ho'
    obtain ⟨o, ho, hl⟩ := hop i o' ho'
    rw [hl]
    exact h.2 i o ho

theorem ptrS_transport (st st' : GameMap)
    (hro : st'.deployed_operators = st.deployed_operators)
    (hop : ∀ (i : ℕ) (o' : Operator), st'.op_heap[i]? = some o' →
      ∃ o, st.op_heap[i]? = some o ∧ o'.blocked_enemies = o.blocked_enemies)
    (hen : ∀ (u : ℕ) (e : Enemy), st.enemy_heap[u]? = some e →
      ∃ e', st'.enemy_heap[u]? = some e' ∧ e'.is_blocked = e.is_blocked ∧
        e'.blocked_by = e.blocked_by)
    (h : st.ptrS) : st'.ptrS := by
  intro i o' ho' u hu
  obtain ⟨o, ho, hl⟩ := hop i o' ho'
  obtain ⟨e, he, hb, hbb⟩ := h i o ho u (hl ▸ hu)
  obtain ⟨e', he', hb', hbb'⟩ := hen u e he
  exact ⟨e', he', hb'.trans hb, hbb'.trans hbb⟩

theorem offClean_transport (st st' : GameMap)
    (hro : st'.deployed_operators = st.deployed_operators)
    (hop : ∀ (i : ℕ) (o' : Operator), st'.op_heap[i]? = some o' →
      ∃ o, st.op_heap[i]? = some o ∧ o'.blocked_enemies = o.blocked_enemies)
    (h : st.offClean) : st'.offClean := by
  intro i o' ho' hni
  obtain ⟨o, ho, hl⟩ := hop i o' ho'
  rw [hl]
  exact h i o ho (by rw [← hro]; exact hni)

theorem wfDeploy_transport (st st' : GameMap)
    (hro : st'.deployed_operators = st.deployed_operators)
    (hrows : st'.rows = st.rows) (hcols : st'.cols = st.cols)
    (hlay : st'.map_layout = st.map_layout) (hti : st'.tiles = st.tiles)
    (hop : ∀ (u : ℕ) (o : Operator), st.op_heap[u]? = some o →
      ∃ o', st'.op_heap[u]? = some o' ∧ o'.position = o.position ∧
        o'.is_deployed = o.is_deployed)
    (h : st.wfDeploy) : st'.wfDeploy := by
  obtain ⟨hnd, hrb, hpb⟩ := h
  refine ⟨hro ▸ hnd, ?_, ?_⟩
  · intro u hu
    obtain ⟨o, ho, hd, p, i, t, hp, hgt, hocc⟩ := hrb u (hro ▸ hu)
    obtain ⟨o', ho', hp', hd'⟩ := hop u o ho
    exact ⟨o', ho', hd'.trans hd, p, i, t, hp'.trans hp,
      (get_tile_at_congr st st' p hrows hcols hlay hti).trans hgt, hocc⟩
  · intro i t hit ou hou
    obtain ⟨hmem, o, ho, p, hp, hgt⟩ := hpb i t (hti ▸ hit) ou hou
    obtain ⟨o', ho', hp', _⟩ := hop ou o ho
    exact ⟨hro ▸ hmem, o', ho', p, hp'.trans hp,
      (get_tile_at_congr st st' p hrows hcols hlay hti).trans hgt⟩

/-- The invariant bundle carried between the operator pass and the
release pass. -/
def GameMap.midInv (st : GameMap) : Prop :=
  st.capOK ∧ st.uniqOK ∧ st.ptrS ∧ st.offClean ∧ st.wfDeploy

theorem midInv_transport (s s' : GameMap)
    (hro : s'.deployed_operators = s.deployed_operators)
    (hrows : s'.rows = s.rows) (hcols : s'.cols = s.cols)
    (hlay : s'.map_layout = s.map_layout) (hti : s'.tiles = s.tiles)
    (hopF : ∀ (u : ℕ) (o : Operator), s.op_heap[u]? = some o →
      ∃ o', s'.op_heap[u]? = some o' ∧ o'.blocked_enemies = o.blocked_enemies ∧
        o'.max_block_count = o.max_block_count ∧ o'.position = o.position ∧
        o'.is_deployed = o.is_deployed)
    (hopB : ∀ (u : ℕ) (o' : Operator), s'.op_heap[u]? = some o' →
      ∃ o, s.op_heap[u]? = some o ∧ o'.blocked_enemies = o.blocked_enemies ∧
        o'.max_block_count = o.max_block_count)
    (hen : ∀ (v : ℕ) (ev : Enemy), s.enemy_heap[v]? = some ev →
      ∃ e', s'.enemy_heap[v]? = some e' ∧ e'.is_blocked = ev.is_blocked ∧
        e'.blocked_by = ev.blocked_by)
    (h : s.midInv) : s'.midInv := by
  obtain ⟨h1, h2, h3, h4, h5⟩ := h
  refine ⟨capOK_transport s s' (fun i o' ho' => ?_) h1,
    uniqOK_transport s s' (fun i o' ho' => ?_) h2,
    ptrS_transport s s' hro (fun i o' ho' => ?_) hen h3,
    offClean_transport s s' hro (fun i o' ho' => ?_) h4,
    wfDeploy_transport s s' hro hrows hcols hlay hti
      (fun u o ho => (hopF u o ho).imp (fun o' hh => ⟨hh.1, hh.2.2.2.1, hh.2.2.2.2⟩)) h5⟩
  · exact (hopB i o' ho').imp (fun o hh => ⟨hh.1, hh.2.1, hh.2.2⟩)
  · exact (hopB i o' ho').imp (fun o hh => ⟨hh.1, hh.2.1⟩)
  · exact (hopB i o' ho').imp (fun o hh => ⟨hh.1, hh.2.1⟩)
  · exact (hopB i o' ho').imp (fun o hh => ⟨hh.1, hh.2.1⟩)

theorem enemy_step_midInv (delta_time : ℚ) (s : GameMap) (u : ℕ) (s' : GameMap)
    (h : GameMap.enemy_step delta_time s u = some s')
    (hB : s.midInv) : s'.midInv := by
  unfold GameMap.enemy_step at h
  rcases he : s.enemy_heap[u]? with _ | e
  · rw [he] at h; exact absurd h (by simp)
  · rw [he] at h
    dsimp only at h
    have hen : ∀ (v : ℕ) (ev : Enemy), s.enemy_heap[v]? = some ev →
        ∃ e', (s.enemy_heap.set u (e.update delta_time))[v]? = some e' ∧
          e'.is_blocked = ev.is_blocked ∧ e'.blocked_by = ev.blocked_by := by
      intro v ev hv
      by_cases hvu : v = u
      · subst hvu
        rw [hv] at he
        injection he with he'
        subst he'
        exact ⟨ev.update delta_time,
          List.getElem?_set_self (List.getElem?_eq_some.mp hv).1,
          (enemyUpdate_flags ev delta_time).1, (enemyUpdate_flags ev delta_time).2⟩
      · exact ⟨ev, by rw [List.getElem?_set_ne (fun hh => hvu hh.symm)]; exact hv, rfl, rfl⟩
    split at h
    · split at h <;>
        (simp only [Option.some.injEq] at h; subst h;
         exact midInv_transport s _ rfl rfl rfl rfl rfl
           (fun v o hv => ⟨o, hv, rfl, rfl, rfl, rfl⟩)
           (fun v o' hv => ⟨o', hv, rfl, rfl⟩) hen hB)
    · split at h <;>
        (simp only [Option.some.injEq] at h; subst h;
         exact midInv_transport s _ rfl rfl rfl rfl rfl
           (fun v o hv => ⟨o, hv, rfl, rfl, rfl, rfl⟩)
           (fun v o' hv => ⟨o', hv, rfl, rfl⟩) hen hB)

theorem update_enemies_midInv (s : GameMap) (delta_time : ℚ) (s' : GameMap)
    (h : s.update_enemies delta_time = some s') (hB : s.midInv) : s'.midInv :=
  optFold_eq_some_pres _ GameMap.midInv
    (fun a b c hh hp => enemy_step_midInv delta_time a b c hh hp)
    s.active_enemies s s' h hB

theorem operator_attack_step_midInv (s : GameMap) (u : ℕ) (s' : GameMap)
    (h : GameMap.operator_attack_step s u = some s')
    (hB : s.midInv) : s'.midInv := by
  unfold GameMap.operator_attack_step at h
  rcases ho : s.op_heap[u]? with _ | operator
  · rw [ho] at h; exact absurd h (by simp)
  · rw [ho] at h
    dsimp only at h
    split at h
    · split at h
      · exact absurd h (by simp)
      · simp only [Option.some.injEq] at h; subst h; exact hB
      · rename_i tu htu
        rcases hetu : s.enemy_heap[tu]? with _ | e
        · rw [hetu] at h; exact absurd h (by simp)
        · rw [hetu] at h
          dsimp only at h
          split at h
          · exact absurd h (by simp)
          · simp only [Option.some.injEq] at h
            subst h
            refine midInv_transport s _ rfl rfl rfl rfl rfl ?_ ?_ ?_ hB
            · intro v o hv
              by_cases hvu : v = u
              · subst hvu
                rw [hv] at ho
                injection ho with ho'
                subst ho'
                exact ⟨_, List.getElem?_set_self (List.getElem?_eq_some.mp hv).1,
                  rfl, rfl, rfl, rfl⟩
              · exact ⟨o, by rw [List.getElem?_set_ne (fun hh => hvu hh.symm)]; exact hv,
                  rfl, rfl, rfl, rfl⟩
            · intro v o' hv
              by_cases hvu : v = u
              · subst hvu
                rw [List.getElem?_set_self (List.getElem?_eq_some.mp ho).1] at hv
                injection hv with hv'
                subst hv'
                exact ⟨operator, ho, rfl, rfl⟩
              · rw [List.getElem?_set_ne (fun hh => hvu hh.symm)] at hv
                exact ⟨o', hv, rfl, rfl⟩
            · intro v ev hv
              by_cases hvt : v = tu
              · subst hvt
                rw [hv] at hetu
                injection hetu with he'
                subst he'
                exact ⟨_, List.getElem?_set_self (List.getElem?_eq_some.mp hv).1, rfl, rfl⟩
              · exact ⟨ev, by rw [List.getElem?_set_ne (fun hh => hvt hh.symm)]; exact hv,
                  rfl, rfl⟩
    · simp only [Option.some.injEq] at h; subst h; exact hB

theorem enemy_attack_step_midInv (s : GameMap) (u : ℕ) (s' : GameMap)
    (h : GameMap.enemy_attack_step s u = some s')
    (hB : s.midInv) : s'.midInv := by
  unfold GameMap.enemy_attack_step at h
  rcases he : s.enemy_heap[u]? with _ | enemy
  · rw [he] at h; exact absurd h (by simp)
  · rw [he] at h
    dsimp only at h
    split at h
    · split at h
      · simp only [Option.some.injEq] at h; subst h; exact hB
      · rename_i ub hub
        rcases hop : s.op_heap[ub]? with _ | op
        · rw [hop] at h; exact absurd h (by simp)
        · rw [hop] at h
          dsimp only at h
          split at h
          · exact absurd h (by simp)
          · simp only [Option.some.injEq] at h
            subst h
            refine midInv_transport s _ rfl rfl rfl rfl rfl ?_ ?_ ?_ hB
            · intro v o hv
              by_cases hvu : v = ub
              · subst hvu
                rw [hv] at hop
                injection hop with ho'
                subst ho'
                exact ⟨_, List.getElem?_set_self (List.getElem?_eq_some.mp hv).1,
                  rfl, rfl, take_damage_entity_pos _ _ _, rfl⟩
              · exact ⟨o, by rw [List.getElem?_set_ne (fun hh => hvu hh.symm)]; exact hv,
                  rfl, rfl, rfl, rfl⟩
            · intro v o' hv
              by_cases hvu : v = ub
              · subst hvu
                rw [List.getElem?_set_self (List.getElem?_eq_some.mp hop).1] at hv
                injection hv with hv'
                subst hv'
                exact ⟨op, hop, rfl, rfl⟩
              · rw [List.getElem?_set_ne (fun hh => hvu hh.symm)] at hv
                exact ⟨o', hv, rfl, rfl⟩
            · intro v ev hv
              by_cases hvu : v = u
              · subst hvu
                rw [hv] at he
                injection he with he'
                subst he'
                exact ⟨_, List.getElem?_set_self (List.getElem?_eq_some.mp hv).1, rfl, rfl⟩
              · exact ⟨ev, by rw [List.getElem?_set_ne (fun hh => hvu hh.symm)]; exact hv,
                  rfl, rfl⟩
    · simp only [Option.some.injEq] at h; subst h; exact hB

theorem process_combat_midInv (s : GameMap) (s' : GameMap)
    (h : s.process_combat = some s') (hB : s.midInv) : s'.midInv := by
  unfold GameMap.process_combat at h
  rcases h1 : optFold GameMap.operator_attack_step s s.deployed_operators with _ | s₁
  · rw [h1] at h; exact absurd h (by simp)
  · rw [h1] at h
    have hB1 : s₁.midInv :=
      optFold_eq_some_pres _ GameMap.midInv operator_attack_step_midInv
        s.deployed_operators s s₁ h1 hB
    exact optFold_eq_some_pres _ GameMap.midInv enemy_attack_step_midInv
      s₁.active_enemies s₁ s' h hB1

theorem block_step_midInv (s : GameMap) (u : ℕ) (s' : GameMap)
    (h : GameMap.block_step s u = some s') (hB : s.midInv) : s'.midInv := by
  obtain ⟨h1, h2, h3, h4, h5⟩ := hB
  unfold GameMap.block_step at h
  rcases henu : s.enemy_heap[u]? with _ | enemy
  · rw [henu] at h; exact absurd h (by simp)
  · rw [henu] at h
    dsimp only at h
    split at h
    · simp only [Option.some.injEq] at h; subst h; exact ⟨h1, h2, h3, h4, h5⟩
    · rename_i hguard
      have hnb : enemy.is_blocked = false := by
        rcases not_or.mp hguard with ⟨ha, _⟩
        simpa using ha
      split at h
      · rename_i p hpos
        split at h
        · simp only [Option.some.injEq] at h; subst h; exact ⟨h1, h2, h3, h4, h5⟩
        · rename_i ti t hgt
          split at h
          · simp only [Option.some.injEq] at h; subst h; exact ⟨h1, h2, h3, h4, h5⟩
          · rename_i ou hocc
            rcases hou : s.op_heap[ou]? with _ | op
            · rw [hou] at h; exact absurd h (by simp)
            · rw [hou] at h
              dsimp only at h
              split at h
              · rename_i hcap
                simp only [Option.some.injEq] at h
                subst h
                have fresh : ∀ (j : ℕ) (oj : Operator), s.op_heap[j]? = some oj →
                    u ∉ oj.blocked_enemies := by
                  intro j oj hj hmem
                  obtain ⟨e', he', hb, _⟩ := h3 j oj hj u hmem
                  rw [henu] at he'
                  injection he' with he''
                  rw [← he''] at hb
                  rw [hnb] at hb
                  exact Bool.false_ne_true hb
                have ouRoster : ou ∈ s.deployed_operators :=
                  (h5.2.2 ti t (get_tile_at_tiles s p ti t hgt) ou hocc).1
                have hoult : ou < s.op_heap.length := (List.getElem?_eq_some.mp hou).1
                have hult : u < s.enemy_heap.length := (List.getElem?_eq_some.mp henu).1
                refine ⟨?_, ⟨?_, ?_⟩, ?_, ?_, ?_⟩
                · intro i o' h'
                  by_cases hiou : i = ou
                  · rw [hiou, List.getElem?_set_self hoult] at h'
                    injection h' with h''
                    rw [← h'']
                    simp only [List.length_append, List.length_singleton]
                    push_cast
                    omega
                  · rw [List.getElem?_set_ne (fun hh => hiou hh.symm)] at h'
                    exact h1 i o' h'
                · intro w i j oi oj hi hj hwi hwj
                  by_cases hiou : i = ou <;> by_cases hjou : j = ou
                  · rw [hiou, hjou]
                  · rw [hiou, List.getElem?_set_self hoult] at hi
                    injection hi with hi'
                    rw [← hi'] at hwi
                    rw [List.getElem?_set_ne (fun hh => hjou hh.symm)] at hj
                    rcases List.mem_append.mp hwi with hwl | hwu
                    · exact hiou.trans (h2.1 w ou j op oj hou hj hwl hwj)
                    · rw [List.mem_singleton.mp hwu] at hwj
                      exact absurd hwj (fresh j oj hj)
                  · rw [hjou, List.getElem?_set_self hoult] at hj
                    injection hj with hj'
                    rw [← hj'] at hwj
                    rw [List.getElem?_set_ne (fun hh => hiou hh.symm)] at hi
                    rcases List.mem_append.mp hwj with hwl | hwu
                    · exact (h2.1 w i ou oi op hi hou hwi hwl).trans hjou.symm
                    · rw [List.mem_singleton.mp hwu] at hwi
                      exact absurd hwi (fresh i oi hi)
                  · rw [List.getElem?_set_ne (fun hh => hiou hh.symm)] at hi
                    rw [List.getElem?_set_ne (fun hh => hjou hh.symm)] at hj
                    exact h2.1 w i j oi oj hi hj hwi hwj
                · intro i o' h'
                  by_cases hiou : i = ou
                  · rw [hiou, List.getElem?_set_self hoult] at h'
                    injection h' with h''
                    rw [← h'']
                    refine List.Nodup.append (h2.2 ou op hou) (List.nodup_singleton u) ?_
                    intro a ha hau
                    rw [List.mem_singleton.mp hau] at ha
                    exact fresh ou op hou ha
                  · rw [List.getElem?_set_ne (fun hh => hiou hh.symm)] at h'
                    exact h2.2 i o' h'
                · intro i o' h' w hw
                  by_cases hiou : i = ou
                  · rw [hiou, List.getElem?_set_self hoult] at h'
                    injection h' with h''
                    rw [← h''] at hw
                    rw [hiou]
                    rcases List.mem_append.mp hw with hwl | hwu
                    · obtain ⟨e', he', hb, hbb⟩ := h3 ou op hou w hwl
                      have hwne : w ≠ u := fun hh => fresh ou op hou (hh ▸ hwl)
                      refine ⟨e', ?_, hb, hbb⟩
                      rw [List.getElem?_set_ne (fun hh => hwne hh.symm)]
                      exact he'
                    · rw [List.mem_singleton.mp hwu]
                      exact ⟨enemy.get_blocked_by ou, List.getElem?_set_self hult, rfl, rfl⟩
                  · rw [List.getElem?_set_ne (fun hh => hiou hh.symm)] at h'
                    obtain ⟨e', he', hb, hbb⟩ := h3 i o' h' w hw
                    have hwne : w ≠ u := fun hh => fresh i o' h' (hh ▸ hw)
                    refine ⟨e', ?_, hb, hbb⟩
                    rw [List.getElem?_set_ne (fun hh => hwne hh.symm)]
                    exact he'
                · intro i o' h' hni
                  by_cases hiou : i = ou
                  · rw [hiou] at hni
                    exact absurd ouRoster hni
                  · rw [List.getElem?_set_ne (fun hh => hiou hh.symm)] at h'
                    exact h4 i o' h' hni
                · refine wfDeploy_transport s _ rfl rfl rfl rfl rfl ?_ h5
                  intro v o hv
                  by_cases hvou : v = ou
                  · rw [hvou] at hv
                    rw [hv] at hou
                    injection hou with hou'
                    refine ⟨{ op with blocked_enemies := op.blocked_enemies ++ [u] },
                      ?_, ?_, ?_⟩
                    · rw [hvou]
                      exact List.getElem?_set_self hoult
                    · rw [← hou']
                    · rw [← hou']
                  · refine ⟨o, ?_, rfl, rfl⟩
                    rw [List.getElem?_set_ne (fun hh => hvou hh.symm)]
                    exact hv
              · simp only [Option.some.injEq] at h; subst h; exact ⟨h1, h2, h3, h4, h5⟩
      · exact absurd h (by simp)

theorem filter_alive_sublist (s : GameMap) :
    ∀ (l l' : List ℕ), GameMap.filter_alive s l = some l' → List.Sublist l' l := by
  intro l
  induction l with
  | nil =>
    intro l' h
    simp only [GameMap.filter_alive, Option.some.injEq] at h
    subst h
    exact List.Sublist.refl []
  | cons u rest ih =>
    intro l' h
    unfold GameMap.filter_alive at h
    split at h
    · exact absurd h (by simp)
    · split at h
      · exact absurd h (by simp)
      · rename_i l₀ hrec
        split at h <;> (simp only [Option.some.injEq] at h; subst h)
        · exact List.Sublist.cons₂ u (ih l₀ hrec)
        · exact List.Sublist.cons u (ih l₀ hrec)

theorem purge_step_props (s : GameMap) (u : ℕ) (s' : GameMap)
    (h : GameMap.purge_step s u = some s') (hm : u ∈ s.deployed_operators)
    (hB : s.midInv) :
    s'.midInv ∧ s'.deployed_operators = s.deployed_operators ∧
    s'.active_enemies = s.active_enemies ∧ s'.enemy_heap = s.enemy_heap := by
  obtain ⟨h1, h2, h3, h4, h5⟩ := hB
  unfold GameMap.purge_step at h
  rcases hou : s.op_heap[u]? with _ | op
  · rw [hou] at h; exact absurd h (by simp)
  · rw [hou] at h
    dsimp only at h
    split at h
    · exact absurd h (by simp)
    · rename_i l hfa
      have hsub : List.Sublist l op.blocked_enemies := filter_alive_sublist s _ l hfa
      simp only [Option.some.injEq] at h
      subst h
      have hult : u < s.op_heap.length := (List.getElem?_eq_some.mp hou).1
      refine ⟨⟨?_, ⟨?_, ?_⟩, ?_, ?_, ?_⟩, rfl, rfl, rfl⟩
      · intro i o' h'
        by_cases hiu : i = u
        · rw [hiu, List.getElem?_set_self hult] at h'
          injection h' with h''
          rw [← h'']
          have := h1 u op hou
          have hle := hsub.length_le
          simp only
          omega
        · rw [List.getElem?_set_ne (fun hh => hiu hh.symm)] at h'
          exact h1 i o' h'
      · intro w i j oi oj hi hj hwi hwj
        by_cases hiu : i = u <;> by_cases hju : j = u
        · rw [hiu, hju]
        · rw [hiu, List.getElem?_set_self hult] at hi
          injection hi with hi'
          rw [← hi'] at hwi
          rw [List.getElem?_set_ne (fun hh => hju hh.symm)] at hj
          exact hiu.trans (h2.1 w u j op oj hou hj (hsub.mem hwi) hwj)
        · rw [hju, List.getElem?_set_self hult] at hj
          injection hj with hj'
          rw [← hj'] at hwj
          rw [List.getElem?_set_ne (fun hh => hiu hh.symm)] at hi
          exact (h2.1 w i u oi op hi hou hwi (hsub.mem hwj)).trans hju.symm
        · rw [List.getElem?_set_ne (fun hh => hiu hh.symm)] at hi
          rw [List.getElem?_set_ne (fun hh => hju hh.symm)] at hj
          exact h2.1 w i j oi oj hi hj hwi hwj
      · intro i o' h'
        by_cases hiu : i = u
        · rw [hiu, List.getElem?_set_self hult] at h'
          injection h' with h''
          rw [← h'']
          exact hsub.nodup (h2.2 u op hou)
        · rw [List.getElem?_set_ne (fun hh => hiu hh.symm)] at h'
          exact h2.2 i o' h'
      · intro i o' h' w hw
        by_cases hiu : i = u
        · rw [hiu, List.getElem?_set_self hult] at h'
          injection h' with h''
          rw [← h''] at hw
          rw [hiu]
          exact h3 u op hou w (hsub.mem hw)
        · rw [List.getElem?_set_ne (fun hh => hiu hh.symm)] at h'
          exact h3 i o' h' w hw
      · intro i o' h' hni
        by_cases hiu : i = u
        · rw [hiu] at hni
          exact absurd hm hni
        · rw [List.getElem?_set_ne (fun hh => hiu hh.symm)] at h'
          exact h4 i o' h' hni
      · refine wfDeploy_transport s _ rfl rfl rfl rfl rfl ?_ h5
        intro v o hv
        by_cases hvu : v = u
        · rw [hvu] at hv
          rw [hv] at hou
          injection hou with hou'
          refine ⟨{ op with blocked_enemies := l }, ?_, ?_, ?_⟩
          · rw [hvu]
            exact List.getElem?_set_self hult
          · rw [← hou']
          · rw [← hou']
        · refine ⟨o, ?_, rfl, rfl⟩
          rw [List.getElem?_set_ne (fun hh => hvu hh.symm)]
          exact hv

theorem optFold_purge_midInv :
    ∀ (l : List ℕ) (s s' : GameMap),
      optFold GameMap.purge_step s l = some s' →
      (∀ v, v ∈ l → v ∈ s.deployed_operators) → s.midInv →
      s'.midInv ∧ s'.active_enemies = s.active_enemies := by
  intro l
  induction l with
  | nil =>
    intro s s' h _ hB
    simp only [optFold, Option.some.injEq] at h
    subst h
    exact ⟨hB, rfl⟩
  | cons u rest ih =>
    intro s s' h hm hB
    simp only [optFold] at h
    split at h
    · exact absurd h (by simp)
    · rename_i s₁ hstep
      obtain ⟨hB₁, hro₁, hae₁, _⟩ :=
        purge_step_props s u s₁ hstep (hm u (List.mem_cons_self u rest)) hB
      obtain ⟨hB', hae'⟩ := ih s₁ s' h
        (fun v hv => hro₁ ▸ hm v (List.mem_cons_of_mem u hv)) hB₁
      exact ⟨hB', hae'.trans hae₁⟩

/-- Pointwise form of `consistOK`. -/
def GameMap.consistPoint (st : GameMap) (v : ℕ) : Prop :=
  ∀ (e : Enemy), st.enemy_heap[v]? = some e → e.is_blocked = true →
    ∀ ub, e.blocked_by = some ub →
      ub ∈ st.deployed_operators ∧
      ∃ (o : Operator), st.op_heap[ub]? = some o ∧ o.is_alive = true

theorem ptrS_to_ptrW (s : GameMap) (h : s.ptrS) : s.ptrW :=
  fun i o ho u hu => Or.inl (h i o ho u hu)

theorem release_step_props (s : GameMap) (u : ℕ) (s' : GameMap)
    (h : GameMap.release_step s u = some s')
    (hI : s.capOK ∧ s.uniqOK ∧ s.ptrW ∧ s.offClean ∧ s.wfDeploy) :
    (s'.capOK ∧ s'.uniqOK ∧ s'.ptrW ∧ s'.offClean ∧ s'.wfDeploy) ∧
    s'.deployed_operators = s.deployed_operators ∧
    s'.active_enemies = s.active_enemies ∧
    s'.consistPoint u ∧ (∀ v, s.consistPoint v → s'.consistPoint v) := by
  obtain ⟨h1, h2, h3, h4, h5⟩ := hI
  unfold GameMap.release_step at h
  rcases henu : s.enemy_heap[u]? with _ | enemy
  · rw [henu] at h; exact absurd h (by simp)
  · rw [henu] at h
    dsimp only at h
    have hult : u < s.enemy_heap.length := (List.getElem?_eq_some.mp henu).1
    split at h <;> rename_i hbl
    · split at h
      · rename_i hbbn
        simp only [Option.some.injEq] at h
        subst h
        refine ⟨⟨h1, h2, h3, h4, h5⟩, rfl, rfl, ?_, fun v hv => hv⟩
        intro e he _ ub hbb
        rw [henu] at he
        injection he with he'
        rw [← he', hbbn] at hbb
        exact absurd hbb (by simp)
      · rename_i ub hbb
        split at h <;> rename_i hmem
        · rcases hop : s.op_heap[ub]? with _ | op
          · rw [hop] at h; exact absurd h (by simp)
          · rw [hop] at h
            dsimp only at h
            split at h <;> rename_i halive
            · simp only [Option.some.injEq] at h
              subst h
              refine ⟨⟨h1, h2, h3, h4, h5⟩, rfl, rfl, ?_, fun v hv => hv⟩
              intro e he _ ub' hbb'
              rw [henu] at he
              injection he with he'
              rw [← he', hbb] at hbb'
              injection hbb' with hbb''
              rw [← hbb'']
              exact ⟨hmem, op, hop, halive⟩
            · simp only [Option.some.injEq] at h
              subst h
              refine ⟨⟨?_, ?_, ?_, ?_, ?_⟩, rfl, rfl, ?_, ?_⟩
              · exact fun i o ho => h1 i o ho
              · exact ⟨fun w i j oi oj hi hj => h2.1 w i j oi oj hi hj,
                  fun i o ho => h2.2 i o ho⟩
              · intro i o ho w hw
                rcases h3 i o ho w hw with ⟨e', he', hb', hbb'⟩ | hstale
                · by_cases hwu : w = u
                  · rw [hwu] at he'
                    rw [henu] at he'
                    injection he' with he''
                    rw [← he''] at hbb'
                    rw [hbb] at hbb'
                    injection hbb' with hbi
                    have ho2 : s.op_heap[i]? = some o := ho
                    rw [hbi] at hop hmem
                    rw [ho2] at hop
                    injection hop with ho'
                    rw [← ho'] at halive
                    refine Or.inr ⟨?_, hmem⟩
                    simpa using halive
                  · refine Or.inl ⟨e', ?_, hb', hbb'⟩
                    rw [List.getElem?_set_ne (fun hh => hwu hh.symm)]
                    exact he'
                · exact Or.inr hstale
              · exact fun i o ho hni => h4 i o ho hni
              · refine wfDeploy_transport s _ rfl rfl rfl rfl rfl
                  (fun v o hv => ⟨o, hv, rfl, rfl⟩) h5
              · intro e he
                rw [List.getElem?_set_self hult] at he
                injection he with he'
                rw [← he']
                intro hb
                exact absurd hb (by simp [Enemy.release_block])
              · intro v hv e he hb ub' hbb'
                by_cases hvu : v = u
                · rw [hvu, List.getElem?_set_self hult] at he
                  injection he with he'
                  rw [← he'] at hb
                  exact absurd hb (by simp [Enemy.release_block])
                · rw [List.getElem?_set_ne (fun hh => hvu hh.symm)] at he
                  exact hv e he hb ub' hbb'
        · simp only [Option.some.injEq] at h
          subst h
          refine ⟨⟨?_, ?_, ?_, ?_, ?_⟩, rfl, rfl, ?_, ?_⟩
          · exact fun i o ho => h1 i o ho
          · exact ⟨fun w i j oi oj hi hj => h2.1 w i j oi oj hi hj,
              fun i o ho => h2.2 i o ho⟩
          · intro i o ho w hw
            rcases h3 i o ho w hw with ⟨e', he', hb', hbb'⟩ | hstale
            · by_cases hwu : w = u
              · rw [hwu] at he'
                rw [henu] at he'
                injection he' with he''
                rw [← he''] at hbb'
                rw [hbb] at hbb'
                injection hbb' with hbi
                rw [hbi] at hmem
                have := h4 i o ho hmem
                rw [this] at hw
                exact absurd hw (List.not_mem_nil w)
              · refine Or.inl ⟨e', ?_, hb', hbb'⟩
                rw [List.getElem?_set_ne (fun hh => hwu hh.symm)]
                exact he'
            · exact Or.inr hstale
          · exact fun i o ho hni => h4 i o ho hni
          · refine wfDeploy_transport s _ rfl rfl rfl rfl rfl
              (fun v o hv => ⟨o, hv, rfl, rfl⟩) h5
          · intro e he
            rw [List.getElem?_set_self hult] at he
            injection he with he'
            rw [← he']
            intro hb
            exact absurd hb (by simp [Enemy.release_block])
          · intro v hv e he hb ub' hbb'
            by_cases hvu : v = u
            · rw [hvu, List.getElem?_set_self hult] at he
              injection he with he'
              rw [← he'] at hb
              exact absurd hb (by simp [Enemy.release_block])
            · rw [List.getElem?_set_ne (fun hh => hvu hh.symm)] at he
              exact hv e he hb ub' hbb'
    · simp only [Option.some.injEq] at h
      subst h
      refine ⟨⟨h1, h2, h3, h4, h5⟩, rfl, rfl, ?_, fun v hv => hv⟩
      intro e he hb
      rw [henu] at he
      injection he with he'
      rw [← he'] at hb
      rw [hb] at hbl
      exact absurd rfl hbl

theorem optFold_release :
    ∀ (l : List ℕ) (s s' : GameMap) (A : List ℕ),
      optFold GameMap.release_step s l = some s' →
      (s.capOK ∧ s.uniqOK ∧ s.ptrW ∧ s.offClean ∧ s.wfDeploy) →
      (∀ v, v ∈ A → v ∈ l ∨ s.consistPoint v) →
      (s'.capOK ∧ s'.uniqOK ∧ s'.ptrW ∧ s'.offClean ∧ s'.wfDeploy) ∧
      (∀ v, v ∈ A → s'.consistPoint v) ∧
      s'.active_enemies = s.active_enemies := by
  intro l
  induction l with
  | nil =>
    intro s s' A h hI hA
    simp only [optFold, Option.some.injEq] at h
    subst h
    refine ⟨hI, ?_, rfl⟩
    intro v hv
    rcases hA v hv with hvl | hvp
    · exact absurd hvl (List.not_mem_nil v)
    · exact hvp
  | cons u rest ih =>
    intro s s' A h hI hA
    simp only [optFold] at h
    split at h
    · exact absurd h (by simp)
    · rename_i s₁ hstep
      obtain ⟨hI₁, _, hae₁, hpt, hpers⟩ := release_step_props s u s₁ hstep hI
      have hA₁ : ∀ v, v ∈ A → v ∈ rest ∨ s₁.consistPoint v := by
        intro v hv
        rcases hA v hv with hvl | hvp
        · rcases List.mem_cons.mp hvl with hvu | hvr
          · exact Or.inr (hvu ▸ hpt)
          · exact Or.inl hvr
        · exact Or.inr (hpers v hvp)
      obtain ⟨hI', hA', hae'⟩ := ih s₁ s' A h hI₁ hA₁
      exact ⟨hI', hA', hae'.trans hae₁⟩

theorem process_blocking_inv (s : GameMap) (s' : GameMap)
    (h : s.process_blocking = some s') (hB : s.midInv) :
    s'.blockInv ∧ s'.consistOK := by
  unfold GameMap.process_blocking at h
  rcases h1 : optFold GameMap.block_step s s.active_enemies with _ | st₁
  · rw [h1] at h; exact absurd h (by simp)
  · rw [h1] at h
    dsimp only at h
    have hB₁ : st₁.midInv :=
      optFold_eq_some_pres _ GameMap.midInv block_step_midInv
        s.active_enemies s st₁ h1 hB
    rcases h2 : optFold GameMap.purge_step st₁ st₁.deployed_operators with _ | st₂
    · rw [h2] at h; exact absurd h (by simp)
    · rw [h2] at h
      obtain ⟨hB₂, _⟩ := optFold_purge_midInv st₁.deployed_operators st₁ st₂ h2
        (fun v hv => hv) hB₁
      obtain ⟨hC1, hC2, hC3, hC4, hC5⟩ := hB₂
      obtain ⟨hI', hA', hae'⟩ := optFold_release st₂.active_enemies st₂ s'
        st₂.active_enemies h ⟨hC1, hC2, ptrS_to_ptrW st₂ hC3, hC4, hC5⟩
        (fun v hv => Or.inl hv)
      refine ⟨⟨hI'.1, hI'.2.1, hI'.2.2.1, hI'.2.2.2.1, hI'.2.2.2.2⟩, ?_⟩
      intro v hv e he hb ub hbb
      exact hA' v (hae' ▸ hv) e he hb ub hbb

/-- Mid-operator-pass pointer invariant: stale entries are only allowed at
dead rostered operators that the pass has not yet processed. -/
def GameMap.ptr1 (l : List ℕ) (st : GameMap) : Prop :=
  ∀ (i : ℕ) (o : Operator), st.op_heap[i]? = some o → ∀ u, u ∈ o.blocked_enemies →
    (∃ e, st.enemy_heap[u]? = some e ∧ e.is_blocked = true ∧ e.blocked_by = some i) ∨
    (o.is_alive = false ∧ i ∈ st.deployed_operators ∧ i ∈ l)

theorem tile_index_at_congr (st st' : GameMap) (p : Position)
    (hrows : st'.rows = st.rows) (hcols : st'.cols = st.cols)
    (hlay : st'.map_layout = st.map_layout) :
    st'.tile_index_at p = st.tile_index_at p := by
  unfold GameMap.tile_index_at GameMap.is_valid_position
  rw [hrows, hcols, hlay]

theorem get_tile_at_set_tiles (st st' : GameMap) (p : Position)
    (hrows : st'.rows = st.rows) (hcols : st'.cols = st.cols)
    (hlay : st'.map_layout = st.map_layout)
    (i : ℕ) (x : Tile) (hti : st'.tiles = st.tiles.set i x)
    (j : ℕ) (t : Tile) (h : st.get_tile_at p = some (j, t)) (hne : j ≠ i) :
    st'.get_tile_at p = some (j, t) := by
  unfold GameMap.get_tile_at at h ⊢
  rw [tile_index_at_congr st st' p hrows hcols hlay]
  rcases hidx : st.tile_index_at p with _ | k
  · rw [hidx] at h; exact absurd h (by simp)
  · rw [hidx] at h
    dsimp only at h ⊢
    rcases hk : st.tiles[k]? with _ | t'
    · rw [hk] at h; exact absurd h (by simp)
    · rw [hk] at h
      simp only [Option.some.injEq, Prod.mk.injEq] at h
      have hik : i ≠ k := fun hh => hne (h.1 ▸ hh.symm)
      rw [hti, List.getElem?_set_ne hik, hk]
      dsimp only
      rw [h.1, h.2]

theorem operator_step_phase1 (delta_time : ℚ) (s : GameMap) (u : ℕ) (s₁ : GameMap)
    (l' : List ℕ)
    (hstep : GameMap.operator_step delta_time s u = some s₁)
    (hu : u ∈ s.deployed_operators) (hul : u ∉ l')
    (hm : ∀ v, v ∈ l' → v ∈ s.deployed_operators)
    (hB : s.capOK ∧ s.uniqOK ∧ s.offClean ∧ s.wfDeploy)
    (hptr : GameMap.ptr1 (u :: l') s) :
    (s₁.capOK ∧ s₁.uniqOK ∧ s₁.offClean ∧ s₁.wfDeploy) ∧ GameMap.ptr1 l' s₁ ∧
    (∀ v, v ∈ l' → v ∈ s₁.deployed_operators) := by
  obtain ⟨h1, h2, h4, h5⟩ := hB
  unfold GameMap.operator_step at hstep
  rcases hou : s.op_heap[u]? with _ | operator
  · rw [hou] at hstep; exact absurd hstep (by simp)
  · rw [hou] at hstep
    dsimp only at hstep
    rcases hupd : operator.update delta_time with _ | op₁
    · rw [hupd] at hstep; exact absurd hstep (by simp)
    · rw [hupd] at hstep
      dsimp only at hstep
      obtain ⟨pAlive, pList, pMax, pPos, pDep⟩ := opUpdate_pres operator delta_time op₁ hupd
      have hult : u < s.op_heap.length := (List.getElem?_eq_some.mp hou).1
      split at hstep <;> rename_i halive
      · simp only [Option.some.injEq] at hstep
        subst hstep
        refine ⟨⟨?_, ⟨?_, ?_⟩, ?_, ?_⟩, ?_, fun v hv => hm v hv⟩
        · intro i o' h'
          by_cases hiu : i = u
          · rw [hiu, List.getElem?_set_self hult] at h'
            injection h' with h''
            rw [← h'', pList, pMax]
            exact h1 u operator hou
          · rw [List.getElem?_set_ne (fun hh => hiu hh.symm)] at h'
            exact h1 i o' h'
        · intro w i j oi oj hi hj hwi hwj
          by_cases hiu : i = u <;> by_cases hju : j = u
          · rw [hiu, hju]
          · rw [hiu, List.getElem?_set_self hult] at hi
            injection hi with hi'
            rw [← hi', pList] at hwi
            rw [List.getElem?_set_ne (fun hh => hju hh.symm)] at hj
            exact hiu.trans (h2.1 w u j operator oj hou hj hwi hwj)
          · rw [hju, List.getElem?_set_self hult] at hj
            injection hj with hj'
            rw [← hj', pList] at hwj
            rw [List.getElem?_set_ne (fun hh => hiu hh.symm)] at hi
            exact (h2.1 w i u oi operator hi hou hwi hwj).trans hju.symm
          · rw [List.getElem?_set_ne (fun hh => hiu hh.symm)] at hi
            rw [List.getElem?_set_ne (fun hh => hju hh.symm)] at hj
            exact h2.1 w i j oi oj hi hj hwi hwj
        · intro i o' h'
          by_cases hiu : i = u
          · rw [hiu, List.getElem?_set_self hult] at h'
            injection h' with h''
            rw [← h'', pList]
            exact h2.2 u operator hou
          · rw [List.getElem?_set_ne (fun hh => hiu hh.symm)] at h'
            exact h2.2 i o' h'
        · intro i o' h' hni
          by_cases hiu : i = u
          · rw [hiu] at hni
            exact absurd hu hni
          · rw [List.getElem?_set_ne (fun hh => hiu hh.symm)] at h'
            exact h4 i o' h' hni
        · refine wfDeploy_transport s _ rfl rfl rfl rfl rfl ?_ h5
          intro v o hv
          by_cases hvu : v = u
          · rw [hvu] at hv
            rw [hv] at hou
            injection hou with hou'
            refine ⟨op₁, ?_, ?_, ?_⟩
            · rw [hvu]
              exact List.getElem?_set_self hult
            · rw [pPos, ← hou']
            · rw [pDep, ← hou']
          · refine ⟨o, ?_, rfl, rfl⟩
            rw [List.getElem?_set_ne (fun hh => hvu hh.symm)]
            exact hv
        · intro i o' h' w hw
          by_cases hiu : i = u
          · rw [hiu, List.getElem?_set_self hult] at h'
            injection h' with h''
            rw [← h'', pList] at hw
            rcases hptr u operator hou w hw with hL | hR
            · rw [hiu]
              exact Or.inl hL
            · rw [pAlive] at halive
              exact absurd hR.1 (by simpa using halive)
          · rw [List.getElem?_set_ne (fun hh => hiu hh.symm)] at h'
            rcases hptr i o' h' w hw with hL | hR
            · exact Or.inl hL
            · rcases List.mem_cons.mp hR.2.2 with hiu' | hil
              · exact absurd hiu' hiu
              · exact Or.inr ⟨hR.1, hR.2.1, hil⟩
      · obtain ⟨hnd, hrb, hpb⟩ := h5
        obtain ⟨o, ho, hdep, p, ti, t, hpos, hgt, hocc⟩ := hrb u hu
        rw [hou] at ho
        injection ho with ho'
        rw [← ho'] at hpos
        unfold GameMap.retreat_operator at hstep
        dsimp only at hstep
        rw [List.getElem?_set_self hult] at hstep
        dsimp only at hstep
        rw [if_neg (not_not_intro hu)] at hstep
        rw [pPos, hpos] at hstep
        dsimp only at hstep
        have hgt₁ : ({ s with op_heap := s.op_heap.set u op₁ } : GameMap).get_tile_at p
            = some (ti, t) :=
          (get_tile_at_congr s _ p rfl rfl rfl rfl).trans hgt
        rw [hgt₁] at hstep
        dsimp only at hstep
        unfold GameMap.remove_operator_at at hstep
        rw [hocc] at hstep
        dsimp only at hstep
        rw [List.getElem?_set_self hult] at hstep
        dsimp only at hstep
        rw [List.getElem?_set_self (by simpa using hult)] at hstep
        dsimp only at hstep
        simp only [Option.some.injEq] at hstep
        subst hstep
        have htilastt : s.tiles[ti]? = some t := get_tile_at_tiles s p ti t hgt
        have hlookSu :
            (((s.op_heap.set u op₁).set u op₁.retreat).set u op₁.retreat.retreat)[u]?
              = some op₁.retreat.retreat :=
          List.getElem?_set_self (by simpa using hult)
        have hlookS : ∀ i, i ≠ u →
            (((s.op_heap.set u op₁).set u op₁.retreat).set u op₁.retreat.retreat)[i]?
              = s.op_heap[i]? := by
          intro i hi
          rw [List.getElem?_set_ne (fun hh => hi hh.symm),
            List.getElem?_set_ne (fun hh => hi hh.symm),
            List.getElem?_set_ne (fun hh => hi hh.symm)]
        refine ⟨⟨?_, ⟨?_, ?_⟩, ?_, ?_⟩, ?_, ?_⟩
        · intro i o' h'
          by_cases hiu : i = u
          · rw [hiu, hlookSu] at h'
            injection h' with h''
            rw [← h'']
            have := h1 u operator hou
            simp only [Operator.retreat, List.length_nil]
            omega
          · rw [hlookS i hiu] at h'
            exact h1 i o' h'
        · intro w i j oi oj hi hj hwi hwj
          by_cases hiu : i = u <;> by_cases hju : j = u
          · rw [hiu, hju]
          · rw [hiu, hlookSu] at hi
            injection hi with hi'
            rw [← hi'] at hwi
            exact absurd hwi (by simp [Operator.retreat])
          · rw [hju, hlookSu] at hj
            injection hj with hj'
            rw [← hj'] at hwj
            exact absurd hwj (by simp [Operator.retreat])
          · rw [hlookS i hiu] at hi
            rw [hlookS j hju] at hj
            exact h2.1 w i j oi oj hi hj hwi hwj
        · intro i o' h'
          by_cases hiu : i = u
          · rw [hiu, hlookSu] at h'
            injection h' with h''
            rw [← h'']
            simp [Operator.retreat]
          · rw [hlookS i hiu] at h'
            exact h2.2 i o' h'
        · intro i o' h' hni
          by_cases hiu : i = u
          · rw [hiu, hlookSu] at h'
            injection h' with h''
            rw [← h'']
            simp [Operator.retreat]
          · rw [hlookS i hiu] at h'
            refine h4 i o' h' ?_
            intro hmem
            exact hni (hnd.mem_erase_iff.mpr ⟨hiu, hmem⟩)
        · refine ⟨hnd.erase u, ?_, ?_⟩
          · intro w hw
            obtain ⟨hwne, hwmem⟩ := hnd.mem_erase_iff.mp hw
            obtain ⟨ow, how, hdepw, pw, iw, tw, hposw, hgtw, hoccw⟩ := hrb w hwmem
            have hiwti : iw ≠ ti := by
              intro hh
              have htw : s.tiles[iw]? = some tw := get_tile_at_tiles s pw iw tw hgtw
              rw [hh] at htw
              rw [htilastt] at htw
              injection htw with htw'
              rw [← htw'] at hoccw
              rw [hocc] at hoccw
              injection hoccw with hoccw'
              exact hwne hoccw'.symm
            refine ⟨ow, ?_, hdepw, pw, iw, tw, hposw, ?_, hoccw⟩
            · rw [hlookS w hwne]
              exact how
            · refine get_tile_at_set_tiles s _ pw ?_ ?_ ?_ ti
                { t with deployed_operator := Option.none } ?_ iw tw hgtw hiwti <;> rfl
          · intro j tj hjt ouu houu
            have hjt' : (s.tiles.set ti { t with deployed_operator := Option.none })[j]?
                = some tj := hjt
            by_cases hjti : j = ti
            · rw [hjti, List.getElem?_set_self (List.getElem?_eq_some.mp htilastt).1] at hjt'
              injection hjt' with hjt''
              rw [← hjt''] at houu
              exact absurd houu (by simp)
            · rw [List.getElem?_set_ne (fun hh => hjti hh.symm)] at hjt'
              obtain ⟨hmemu, o₂, ho₂, p₂, hp₂, hgt₂⟩ := hpb j tj hjt' ouu houu
              have houuu : ouu ≠ u := by
                intro hh
                rw [hh] at ho₂
                rw [hou] at ho₂
                injection ho₂ with ho₂'
                rw [← ho₂'] at hp₂
                rw [hpos] at hp₂
                injection hp₂ with hp₂'
                rw [← hp₂'] at hgt₂
                rw [hgt] at hgt₂
                injection hgt₂ with hgt₂'
                exact hjti (congrArg Prod.fst hgt₂').symm
              refine ⟨hnd.mem_erase_iff.mpr ⟨houuu, hmemu⟩, o₂, ?_, p₂, hp₂, ?_⟩
              · rw [hlookS ouu houuu]
                exact ho₂
              · refine get_tile_at_set_tiles s _ p₂ ?_ ?_ ?_ ti
                  { t with deployed_operator := Option.none } ?_ j tj hgt₂ hjti <;> rfl
        · intro i o' h' w hw
          by_cases hiu : i = u
          · rw [hiu, hlookSu] at h'
            injection h' with h''
            rw [← h''] at hw
            exact absurd hw (by simp [Operator.retreat])
          · rw [hlookS i hiu] at h'
            rcases hptr i o' h' w hw with hL | hR
            · exact Or.inl hL
            · rcases List.mem_cons.mp hR.2.2 with hiu' | hil
              · exact absurd hiu' hiu
              · exact Or.inr ⟨hR.1, hnd.mem_erase_iff.mpr ⟨hiu, hR.2.1⟩, hil⟩
        · intro v hv
          exact hnd.mem_erase_iff.mpr ⟨fun hh => hul (hh ▸ hv), hm v hv⟩

theorem optFold_phase1 (delta_time : ℚ) :
    ∀ (l : List ℕ) (s s' : GameMap),
      optFold (GameMap.operator_step delta_time) s l = some s' →
      l.Nodup → (∀ v, v ∈ l → v ∈ s.deployed_operators) →
      (s.capOK ∧ s.uniqOK ∧ s.offClean ∧ s.wfDeploy) → GameMap.ptr1 l s →
      s'.midInv := by
  intro l
  induction l with
  | nil =>
    intro s s' h _ _ hB hptr
    simp only [optFold, Option.some.injEq] at h
    subst h
    refine ⟨hB.1, hB.2.1, ?_, hB.2.2.1, hB.2.2.2⟩
    intro i o ho w hw
    rcases hptr i o ho w hw with hL | hR
    · exact hL
    · exact absurd hR.2.2 (List.not_mem_nil i)
  | cons u rest ih =>
    intro s s' h hnd hm hB hptr
    simp only [optFold] at h
    split at h
    · exact absurd h (by simp)
    · rename_i s₁ hstep
      obtain ⟨hB₁, hptr₁, hm₁⟩ := operator_step_phase1 delta_time s u s₁ rest hstep
        (hm u (List.mem_cons_self u rest)) (List.nodup_cons.mp hnd).1
        (fun v hv => hm v (List.mem_cons_of_mem u hv)) hB hptr
      exact ih s₁ s' h (List.nodup_cons.mp hnd).2 hm₁ hB₁ hptr₁

theorem update_operators_phase1 (s : GameMap) (delta_time : ℚ) (s' : GameMap)
    (h : s.update_operators delta_time = some s') (hI : s.blockInv) : s'.midInv := by
  obtain ⟨h1, h2, h3, h4, h5⟩ := hI
  refine optFold_phase1 delta_time s.deployed_operators s s' h h5.1
    (fun v hv => hv) ⟨h1, h2, h4, h5⟩ ?_
  intro i o ho w hw
  rcases h3 i o ho w hw with hL | hR
  · exact Or.inl hL
  · exact Or.inr ⟨hR.1, hR.2, hR.2⟩

/-- The boundary invariant plus the consistency property. -/
def GameMap.endInv (st : GameMap) : Prop :=
  st.blockInv ∧ st.consistOK

theorem append_lookup {α : Type} (l : List α) (a : α) (v : ℕ) (e : α)
    (h : (l ++ [a])[v]? = some e) : l[v]? = some e ∨ (v = l.length ∧ e = a) := by
  by_cases hv : v < l.length
  · rw [List.getElem?_append_left hv] at h
    exact Or.inl h
  · by_cases hv2 : v = l.length
    · rw [hv2, List.getElem?_concat_length] at h
      injection h with h'
      exact Or.inr ⟨hv2, h'.symm⟩
    · exfalso
      rw [List.getElem?_eq_none (by simp; omega)] at h
      exact Option.noConfusion h

theorem spawn_state_endInv (st : GameMap) (e₁ : Enemy) (hb : e₁.is_blocked = false)
    (h : st.endInv) :
    GameMap.endInv { st with
      enemy_heap := st.enemy_heap ++ [e₁]
      active_enemies := st.active_enemies ++ [st.enemy_heap.length] } := by
  obtain ⟨⟨h1, h2, h3, h4, h5⟩, hC⟩ := h
  refine ⟨⟨fun i o ho => h1 i o ho,
    ⟨fun w i j oi oj hi hj => h2.1 w i j oi oj hi hj, fun i o ho => h2.2 i o ho⟩,
    ?_, fun i o ho hni => h4 i o ho hni,
    wfDeploy_transport st _ rfl rfl rfl rfl rfl (fun v o hv => ⟨o, hv, rfl, rfl⟩) h5⟩,
    ?_⟩
  · intro i o ho w hw
    rcases h3 i o ho w hw with ⟨e', he', hbb, hbp⟩ | hR
    · refine Or.inl ⟨e', ?_, hbb, hbp⟩
      rw [List.getElem?_append_left (List.getElem?_eq_some.mp he').1]
      exact he'
    · exact Or.inr hR
  · intro v hv e he hbl ub hbb
    rcases append_lookup st.enemy_heap e₁ v e he with hold | ⟨hlen, hee⟩
    · rcases List.mem_append.mp hv with hvold | hvnew
      · exact hC v hvold e hold hbl ub hbb
      · rw [List.mem_singleton.mp hvnew] at hold
        rw [List.getElem?_eq_none (le_refl _)] at hold
        exact Option.noConfusion hold
    · rw [hee] at hbl
      rw [hb] at hbl
      exact Bool.noConfusion hbl

theorem spawn_enemy_endInv (st : GameMap) (eid : String) (ri : ℕ)
    (h : st.endInv) : ((st.spawn_enemy eid ri).2).endInv := by
  unfold GameMap.spawn_enemy
  split
  · exact h
  · rename_i data hdata
    dsimp only
    refine spawn_state_endInv st _ ?_ h
    split
    · exact (set_path_flags _ _).1
    · rfl

theorem action_step_endInv (delta_time : ℚ) (pr : List WaveAction × GameMap)
    (a : WaveAction) (h : pr.2.endInv) :
    (GameMap.action_step delta_time pr a).2.endInv := by
  obtain ⟨acc, st⟩ := pr
  unfold GameMap.action_step
  dsimp only at h ⊢
  split
  · exact h
  · split
    · split
      · split
        · exact spawn_enemy_endInv st _ _ h
        · exact h
      · exact h
    · exact h

theorem fragment_step_endInv (delta_time wave_time : ℚ) (pr : List WaveFragment × GameMap)
    (f : WaveFragment) (h : pr.2.endInv) :
    (GameMap.fragment_step delta_time wave_time pr f).2.endInv := by
  obtain ⟨acc, st⟩ := pr
  unfold GameMap.fragment_step
  dsimp only at h ⊢
  split <;>
    (split
     · exact foldl_pres (GameMap.action_step delta_time) (fun pr => pr.2.endInv)
         (action_step_endInv delta_time) _ ([], st) h
     · exact h)

theorem update_waves_endInv (st : GameMap) (delta_time : ℚ)
    (h : st.endInv) : (st.update_waves delta_time).endInv := by
  unfold GameMap.update_waves
  split
  · exact h
  · dsimp only
    split
    · exact foldl_pres _ (fun pr => pr.2.endInv)
        (fragment_step_endInv delta_time _) _ ([], st) h
    · exact foldl_pres _ (fun pr => pr.2.endInv)
        (fragment_step_endInv delta_time _) _ ([], st) h

/-- C7: across one tick (`GameMap.update`), starting from a state whose
blocking bookkeeping is well formed (`blockInv`: capacity respected,
at most one blocker per enemy, listed enemies flagged blocked except in
dead rostered operators' stale lists, off-roster lists empty, and the
deploy roster/tile/position maps mutually inverse), the end-of-tick state
again satisfies the whole invariant, and additionally the cleanup pass's
mutual consistency holds: every operator's blocked-enemy list is within
its `max_block_count`, every enemy is blocked by at most one operator,
and every blocked active enemy's back-reference is a live, still-deployed
operator. -/
theorem c7_blocking_invariants (st : GameMap) (delta_time : ℚ) (st' : GameMap)
    (h : st.update delta_time = some st') (hI : st.blockInv) :
    st'.capOK ∧ st'.uniqOK ∧ st'.consistOK ∧ st'.blockInv := by
  obtain ⟨st₂, st₃, st₄, st₅, h2, h3, h4, h5, hfin⟩ := update_phases st delta_time st' h
  have hI₀ : (st.tick_start delta_time).blockInv := hI
  have hM₂ : st₂.midInv := update_operators_phase1 _ delta_time st₂ h2 hI₀
  have hM₃ : st₃.midInv := update_enemies_midInv st₂ delta_time st₃ h3 hM₂
  have hM₄ : st₄.midInv := process_combat_midInv st₃ st₄ h4 hM₃
  obtain ⟨hB₅, hC₅⟩ := process_blocking_inv st₄ st₅ h5 hM₄
  have hE : (st₅.update_waves delta_time).endInv :=
    update_waves_endInv st₅ delta_time ⟨hB₅, hC₅⟩
  have hE' : st'.endInv := by
    rw [hfin]
    split
    · exact hE
    · exact hE
  exact ⟨hE'.1.1, hE'.1.2.1, hE'.2, hE'.1⟩

theorem c7_blocking_invariants_witness :
    W0v.capOK ∧ W0v.uniqOK ∧ W0v.consistOK ∧ W0v.blockInv := by
  refine c7_blocking_invariants W0 1 W0v W0_update
    ⟨?_, ⟨?_, ?_⟩, ?_, ?_, ?_, ?_, ?_⟩
  · intro i o ho
    rw [show W0.op_heap = [] from rfl] at ho
    simp at ho
  · intro w i j oi oj hi hj
    rw [show W0.op_heap = [] from rfl] at hi
    simp at hi
  · intro i o ho
    rw [show W0.op_heap = [] from rfl] at ho
    simp at ho
  · intro i o ho
    rw [show W0.op_heap = [] from rfl] at ho
    simp at ho
  · intro i o ho
    rw [show W0.op_heap = [] from rfl] at ho
    simp at ho
  · rw [show W0.deployed_operators = [] from rfl]
    exact List.nodup_nil
  · intro u hu
    rw [show W0.deployed_operators = [] from rfl] at hu
    exact absurd hu (List.not_mem_nil u)
  · intro i t ht
    rw [show W0.tiles = [] from rfl] at ht
    simp at ht
